import Mathlib

/-!
Verification of the surrounding-pair core of a text-editing extension.

The embedding models the core modules (`rangeSelector` and `textManipulator`)
over a line-oriented text buffer.  Strings are modeled as `List Char`; the
host-supplied editor snapshot carries the buffer as a list of lines, with the
full document text derived by joining the lines with a newline character and
the per-line accessor returning the empty string out of range, exactly the
host contract assumed by the source.  JavaScript numbers are modeled as `Nat`
(faithful below `2 ^ 53`, where all integer arithmetic of the source is
exact); `Number.MAX_SAFE_INTEGER` is kept as the literal sentinel the source
uses.  JavaScript's `String.prototype.substring` argument clamping/swapping is
modeled by `jsSubstring`.  Regular expressions of the source are deterministic
on their match classes and are embedded as the equivalent explicit scans,
position by position, in the order the JavaScript regex engine visits them.
-/

/-- A position in a line-oriented buffer: zero-based line and character. -/
structure Position where
  line : Nat
  character : Nat
deriving DecidableEq

/-- A range between two positions.  The source calls the second field `end`,
which is a reserved word here, so it is named `stop`. -/
structure Range where
  start : Position
  stop : Position
deriving DecidableEq

/-- Document order on positions (line-major, then character). -/
def posLe (p q : Position) : Prop :=
  p.line < q.line ∨ (p.line = q.line ∧ p.character ≤ q.character)

instance (p q : Position) : Decidable (posLe p q) := by
  unfold posLe; infer_instance

/-- Strict document order on positions. -/
def posLt (p q : Position) : Prop :=
  p.line < q.line ∨ (p.line = q.line ∧ p.character < q.character)

instance (p q : Position) : Decidable (posLt p q) := by
  unfold posLt; infer_instance

/-- The host-supplied editor snapshot.  The source receives `documentText`,
`cursorPosition`, `selection` and a `getLineText` accessor; the host keeps
`documentText` and `getLineText` consistent (the document is the lines joined
by a newline, out-of-range lines read as empty), so the snapshot is modeled by
the line list together with the cursor and selection. -/
structure EditorState where
  lines : List (List Char)
  cursorPosition : Position
  selection : Range

/-- Per-line accessor: text of the given line, empty when out of range. -/
def getLineText (state : EditorState) (lineNumber : Nat) : List Char :=
  state.lines.getD lineNumber []

/-- Join lines with a newline separator (no trailing newline). -/
def joinLines : List (List Char) → List Char
  | [] => []
  | [l] => l
  | l :: ls => l ++ '\n' :: joinLines ls

/-- The full document text of a snapshot. -/
def documentText (state : EditorState) : List Char :=
  joinLines state.lines

/-- JavaScript `String.prototype.substring`: both arguments are clamped to the
string length and swapped when out of order. -/
def jsSubstring (s : List Char) (a b : Nat) : List Char :=
  let a' := min a s.length
  let b' := min b s.length
  (s.drop (min a' b')).take (max a' b' - min a' b')

/-- Extracts the text covered by a range: a single-line range is a substring of
one line; a multi-line range joins the start line's tail, the full middle
lines and the stop line's head. -/
def getTextFromRange (state : EditorState) (range : Range) : List Char :=
  if range.start.line = range.stop.line then
    jsSubstring (getLineText state range.start.line) range.start.character range.stop.character
  else
    let firstLine := getLineText state range.start.line
    let head := jsSubstring firstLine range.start.character firstLine.length
    let middles := (List.range' (range.start.line + 1) (range.stop.line - (range.start.line + 1))).map (getLineText state)
    let lastLine := getLineText state range.stop.line
    let tail := jsSubstring lastLine 0 range.stop.character
    joinLines (head :: (middles ++ [tail]))

/-- Sum of `length + 1` (line text plus its newline) over the first `n` lines,
the accumulator of the source's `positionToOffset` loop. -/
def lineLensSum (state : EditorState) : Nat → Nat
  | 0 => 0
  | n + 1 => lineLensSum state n + ((getLineText state n).length + 1)

/-- Converts a position to an offset: the lengths (plus one newline each) of
all lines before the position's line, plus its character. -/
def positionToOffset (state : EditorState) (position : Position) : Nat :=
  lineLensSum state position.line + position.character

/-- The safety ceiling of the source's `offsetToPosition` line walk. -/
def MAX_LINES : Nat := 100000

/-- The line walk of `offsetToPosition`: starting from `line` with accumulated
`currentOffset`, consume at most `fuel` lines; when the offset falls inside
the current line return that position, and when the ceiling is exhausted
signal the internal error by returning line 0, character 0 (the source logs
an error and returns that value). -/
def offsetToPositionGo (state : EditorState) (offset : Nat) : Nat → Nat → Nat → Position
  | 0, _, _ => ⟨0, 0⟩
  | fuel + 1, line, currentOffset =>
    let lineLength := (getLineText state line).length + 1
    if currentOffset + lineLength > offset then ⟨line, offset - currentOffset⟩
    else offsetToPositionGo state offset fuel (line + 1) (currentOffset + lineLength)

/-- Converts an offset to a position by walking lines from the top, with the
`MAX_LINES` iteration ceiling. -/
def offsetToPosition (state : EditorState) (offset : Nat) : Position :=
  offsetToPositionGo state offset MAX_LINES 0 0

/-- Instrumented twin of the `offsetToPosition` walk that also counts the
executed loop iterations. -/
def offsetToPositionIterGo (state : EditorState) (offset : Nat) : Nat → Nat → Nat → Position × Nat
  | 0, _, _ => (⟨0, 0⟩, 0)
  | fuel + 1, line, currentOffset =>
    let lineLength := (getLineText state line).length + 1
    if currentOffset + lineLength > offset then (⟨line, offset - currentOffset⟩, 1)
    else
      let r := offsetToPositionIterGo state offset fuel (line + 1) (currentOffset + lineLength)
      (r.1, r.2 + 1)

/-- `offsetToPosition` together with its iteration count. -/
def offsetToPositionIter (state : EditorState) (offset : Nat) : Position × Nat :=
  offsetToPositionIterGo state offset MAX_LINES 0 0

/-- Single-quote character, written numerically to keep literals uniform. -/
def squoteChar : Char := Char.ofNat 39

/-- Double-quote character. -/
def dquoteChar : Char := Char.ofNat 34

/-- Backtick character. -/
def backquoteChar : Char := Char.ofNat 96

/-- Opening-brace character. -/
def lbraceChar : Char := Char.ofNat 123

/-- Closing-brace character. -/
def rbraceChar : Char := Char.ofNat 125

/-- The seven basic pair kinds of the source's `BasicPairType` string union:
the four brackets and the three quotes. -/
inductive BasicPairType
  | paren
  | brace
  | sqBracket
  | angle
  | squote
  | dquote
  | backquote
deriving DecidableEq

/-- A pair descriptor: a basic pair (quote or bracket) or a named tag pair. -/
inductive PairType
  | basic (b : BasicPairType)
  | tag (name : List Char)
deriving DecidableEq

/-- The delimiter table of the source: opening and closing text for each
basic pair kind (quotes are symmetric, brackets map to their closer). -/
def PAIR_DELIMITERS : BasicPairType → List Char × List Char
  | .paren => (['('], [')'])
  | .brace => ([lbraceChar], [rbraceChar])
  | .sqBracket => (['['], [']'])
  | .angle => (['<'], ['>'])
  | .squote => ([squoteChar], [squoteChar])
  | .dquote => ([dquoteChar], [dquoteChar])
  | .backquote => ([backquoteChar], [backquoteChar])

/-- Opening and closing delimiter text for any descriptor: table lookup for a
basic pair, `<name>` / `</name>` for a tag. -/
def getPairDelimiter : PairType → List Char × List Char
  | .basic b => PAIR_DELIMITERS b
  | .tag name => ('<' :: name ++ ['>'], '<' :: '/' :: name ++ ['>'])

/-- The bracket kinds queried by `findBracketPairs`. -/
def bracketTypes : List BasicPairType := [.paren, .brace, .sqBracket, .angle]

/-- The quote kinds queried by `findQuotePairs`. -/
def quoteTypes : List BasicPairType := [.squote, .dquote, .backquote]

/-- Whether `pat` occurs in `text` starting exactly at index `i`. -/
def isPrefixAt (text pat : List Char) (i : Nat) : Bool :=
  pat.isPrefixOf (text.drop i)

/-- Scan for the first occurrence of `pat` at or after index `i`, trying at
most `fuel` start positions (the fuel always covers the whole text at the
call sites). -/
def scanIdxFrom (text pat : List Char) : Nat → Nat → Option Nat
  | 0, _ => none
  | fuel + 1, i => if isPrefixAt text pat i then some i else scanIdxFrom text pat fuel (i + 1)

/-- JavaScript `indexOf(pat, searchIndex)`: first occurrence of `pat` at or
after `searchIndex`. -/
def indexOfStrFrom (text pat : List Char) (searchIndex : Nat) : Option Nat :=
  scanIdxFrom text pat (text.length + 1 - searchIndex) searchIndex

/-- JavaScript `indexOf(pat)`: first occurrence of `pat`. -/
def indexOfStr (text pat : List Char) : Option Nat :=
  indexOfStrFrom text pat 0

/-- Accumulator loop for `lastIndexOf`: scan every start position, keeping
the latest index where `pat` occurs. -/
def lastScanIdx (text pat : List Char) : Nat → Nat → Option Nat → Option Nat
  | 0, _, best => best
  | fuel + 1, i, best =>
    lastScanIdx text pat fuel (i + 1) (if isPrefixAt text pat i then some i else best)

/-- JavaScript `lastIndexOf(pat)`: last occurrence of `pat`, if any. -/
def lastIndexOfStr (text pat : List Char) : Option Nat :=
  lastScanIdx text pat (text.length + 1) 0 none

/-- The source's `findAllOccurrences` loop: repeatedly `indexOf` from just
past the previous hit while the search index is inside the text. -/
def findAllOccurrencesGo (text searchString : List Char) : Nat → Nat → List Nat
  | 0, _ => []
  | fuel + 1, searchIndex =>
    if searchIndex < text.length then
      match indexOfStrFrom text searchString searchIndex with
      | none => []
      | some foundIndex => foundIndex :: findAllOccurrencesGo text searchString fuel (foundIndex + 1)
    else []

/-- All occurrence indices of `searchString` in `text`, in ascending order. -/
def findAllOccurrences (text searchString : List Char) : List Nat :=
  findAllOccurrencesGo text searchString (text.length + 1) 0

/-- Quote pairing: consecutive occurrences are paired in strict alternation
(first with second, third with fourth, and so on). -/
def pairConsecutive : List Nat → List (Nat × Nat)
  | a :: b :: rest => (a, b) :: pairConsecutive rest
  | _ => []

/-- Merge of the tagged opening and closing occurrence lists in index order.
The source concatenates the two tagged lists and stable-sorts by index; both
inputs are ascending, so this is the standard merge (on an index tie the
opening comes first, as in a stable sort of openings followed by closings).
Fuel-based so that it reduces definitionally; the fuel covers both lists. -/
def mergeByIndexGo : Nat → List (Nat × Bool) → List (Nat × Bool) → List (Nat × Bool)
  | 0, os, cs => os ++ cs
  | _ + 1, [], cs => cs
  | _ + 1, o :: os, [] => o :: os
  | fuel + 1, o :: os, c :: cs =>
    if o.1 ≤ c.1 then o :: mergeByIndexGo fuel os (c :: cs)
    else c :: mergeByIndexGo fuel (o :: os) cs

/-- The source's `allIndices`: opening occurrences tagged `true` and closing
occurrences tagged `false`, sorted together by index. -/
def allIndices (openingIndices closingIndices : List Nat) : List (Nat × Bool) :=
  mergeByIndexGo (openingIndices.length + closingIndices.length)
    (openingIndices.map (fun index => (index, true)))
    (closingIndices.map (fun index => (index, false)))

/-- The stack-based matcher: push on an opening index, pop-and-pair on a
closing index when the stack is non-empty (pairs are appended in completion
order, as the source pushes them). -/
def stackPairsGo : List (Nat × Bool) → List Nat → List (Nat × Nat) → List (Nat × Nat)
  | [], _, pairs => pairs
  | (index, true) :: rest, stack, pairs => stackPairsGo rest (index :: stack) pairs
  | (_, false) :: rest, [], pairs => stackPairsGo rest [] pairs
  | (index, false) :: rest, openingIndex :: stack, pairs =>
    stackPairsGo rest stack (pairs ++ [(openingIndex, index)])

/-- The source's `findBalancedPairs`: strict-alternation pairing for quotes
(opening equals closing), stack matching for brackets. -/
def findBalancedPairs (text opening closing : List Char) : List (Nat × Nat) :=
  let openingIndices := findAllOccurrences text opening
  let closingIndices := findAllOccurrences text closing
  if opening = closing then pairConsecutive openingIndices
  else stackPairsGo (allIndices openingIndices closingIndices) [] []

/-- The offset quadruple of a located pair: the spans of the opening and the
closing delimiter. -/
structure PairPosition where
  openingStart : Nat
  openingEnd : Nat
  closingStart : Nat
  closingEnd : Nat
deriving DecidableEq

/-- A selection result: the content range, the opening-delimiter span
(`startRange`), the closing-delimiter span (`endRange`) and the content
text. -/
structure SelectionRangeWithPairResult where
  range : Range
  startRange : Range
  endRange : Range
  text : Option (List Char)
deriving DecidableEq

/-- Builds the selection result of a located pair: the content range runs
from the end of the opening delimiter to the start of the closing one, the
delimiter spans are converted offset ranges, and the text is read from the
content range. -/
def createSelectionResult (state : EditorState) (pairPosition : PairPosition) : SelectionRangeWithPairResult :=
  let openingStartPosition := offsetToPosition state pairPosition.openingStart
  let openingEndPosition := offsetToPosition state pairPosition.openingEnd
  let closingStartPosition := offsetToPosition state pairPosition.closingStart
  let closingEndPosition := offsetToPosition state pairPosition.closingEnd
  let range : Range := ⟨openingEndPosition, closingStartPosition⟩
  { range := range
    startRange := ⟨openingStartPosition, openingEndPosition⟩
    endRange := ⟨closingStartPosition, closingEndPosition⟩
    text := some (getTextFromRange state range) }

/-- The sentinel initial value of the quote loop's distance tracker. -/
def MAX_SAFE_INTEGER : Nat := 9007199254740991

/-- The quote-selection loop: break on the first pair that contains the
cursor (`start < cursor ≤ end`) or whose closing delimiter just ended at the
cursor; otherwise track the already-passed pair whose closing delimiter is
nearest before the cursor. -/
def findSurroundingQuotePairGo (cursorOffset closingLength : Nat) :
    List (Nat × Nat) → Option (Nat × Nat) → Nat → Option (Nat × Nat)
  | [], bestPair, _ => bestPair
  | pair :: rest, bestPair, minDistance =>
    if pair.1 < cursorOffset ∧ cursorOffset ≤ pair.2 then some pair
    else if cursorOffset = pair.2 + closingLength then some pair
    else if pair.2 ≤ cursorOffset then
      let distance := cursorOffset - pair.2
      if distance < minDistance then
        findSurroundingQuotePairGo cursorOffset closingLength rest (some pair) distance
      else findSurroundingQuotePairGo cursorOffset closingLength rest bestPair minDistance
    else findSurroundingQuotePairGo cursorOffset closingLength rest bestPair minDistance

/-- Quote branch of the basic-pair finder: run the selection loop over the
alternation candidates and convert the chosen pair. -/
def findSurroundingQuotePair (state : EditorState) (cursorOffset : Nat)
    (balancedPairs : List (Nat × Nat)) (opening closing : List Char) :
    Option SelectionRangeWithPairResult :=
  match findSurroundingQuotePairGo cursorOffset closing.length balancedPairs none MAX_SAFE_INTEGER with
  | none => none
  | some bestPair =>
    some (createSelectionResult state
      ⟨bestPair.1, bestPair.1 + opening.length, bestPair.2, bestPair.2 + closing.length⟩)

/-- Inner loop of the fallback pair search: first closing index that is past
the opening and strictly past the cursor. -/
def findSurroundingPairPositionInner (cursorOffset openingStart : Nat) : List Nat → Option Nat
  | [] => none
  | closingStart :: rest =>
    if closingStart ≤ openingStart then findSurroundingPairPositionInner cursorOffset openingStart rest
    else if cursorOffset > openingStart ∧ cursorOffset < closingStart then some closingStart
    else findSurroundingPairPositionInner cursorOffset openingStart rest

/-- Outer loop of the fallback pair search over the opening indices. -/
def findSurroundingPairPositionGo (cursorOffset : Nat) (closingIndices : List Nat)
    (openingLength closingLength : Nat) : List Nat → Option PairPosition
  | [] => none
  | openingStart :: rest =>
    if openingStart ≥ cursorOffset then
      findSurroundingPairPositionGo cursorOffset closingIndices openingLength closingLength rest
    else
      match findSurroundingPairPositionInner cursorOffset openingStart closingIndices with
      | some closingStart =>
        some ⟨openingStart, openingStart + openingLength, closingStart, closingStart + closingLength⟩
      | none => findSurroundingPairPositionGo cursorOffset closingIndices openingLength closingLength rest

/-- The source's fallback `findSurroundingPairPosition`: pair the first
opening occurrence before the cursor with the first closing occurrence after
the cursor. -/
def findSurroundingPairPosition (cursorOffset : Nat) (openingIndices closingIndices : List Nat)
    (openingLength closingLength : Nat) : Option PairPosition :=
  findSurroundingPairPositionGo cursorOffset closingIndices openingLength closingLength openingIndices

/-- Bracket branch of the basic-pair finder: among the balanced pairs that
strictly contain the cursor pick the one with the smallest span; when none
contains the cursor, fall back to `findSurroundingPairPosition` over the raw
occurrence lists. -/
def findSurroundingBracketPair (state : EditorState) (cursorOffset : Nat)
    (balancedPairs : List (Nat × Nat)) (opening closing : List Char) :
    Option SelectionRangeWithPairResult :=
  let surroundingPairs := balancedPairs.filter
    (fun pair => decide (pair.1 < cursorOffset ∧ cursorOffset < pair.2))
  let surroundingPair : Option (Nat × Nat) :=
    match surroundingPairs with
    | [] => none
    | h :: t =>
      some (List.foldl
        (fun smallest current =>
          if current.2 - current.1 < smallest.2 - smallest.1 then current else smallest)
        h (h :: t))
  match surroundingPair with
  | some pair =>
    some (createSelectionResult state ⟨pair.1, pair.1 + opening.length, pair.2, pair.2 + closing.length⟩)
  | none =>
    let openingIndices := findAllOccurrences (documentText state) opening
    let closingIndices := findAllOccurrences (documentText state) closing
    match findSurroundingPairPosition cursorOffset openingIndices closingIndices opening.length closing.length with
    | none => none
    | some pairPosition => some (createSelectionResult state pairPosition)

/-- The basic-pair finder: compute the balanced pairs, then dispatch on
whether the delimiter is symmetric (quote) or not (bracket). -/
def findSurroundingBasicPair (state : EditorState) (text : List Char) (cursorOffset : Nat)
    (delimiter : List Char × List Char) : Option SelectionRangeWithPairResult :=
  let opening := delimiter.1
  let closing := delimiter.2
  let balancedPairs := findBalancedPairs text opening closing
  if opening = closing then findSurroundingQuotePair state cursorOffset balancedPairs opening closing
  else findSurroundingBracketPair state cursorOffset balancedPairs opening closing

/-- ASCII letter class `[A-Za-z]` of the source's tag regexes. -/
def isAsciiLetter (c : Char) : Bool :=
  decide (('A' ≤ c ∧ c ≤ 'Z') ∨ ('a' ≤ c ∧ c ≤ 'z'))

/-- Tag-name continuation class `[\dA-Za-z]`. -/
def isTagNameChar (c : Char) : Bool :=
  isAsciiLetter c || decide ('0' ≤ c ∧ c ≤ '9')

/-- The whitespace class `\s`, restricted to its ASCII members (space, tab,
newline, carriage return, vertical tab, form feed); the documents handled
here are ASCII. -/
def isJsSpace (c : Char) : Bool :=
  decide (c = ' ' ∨ c = '\t' ∨ c = '\n' ∨ c = '\r' ∨ c = Char.ofNat 11 ∨ c = Char.ofNat 12)

/-- Match of the regex `<name[^>]*>` at index `i`: the text must start with
`<` and the name there, and the match ends just past the first `>` at or
after the name (the `[^>]*` cannot cross a `>`, so the first `>` closes the
match); returns the end index (exclusive). -/
def matchOpenAt (text name : List Char) (i : Nat) : Option Nat :=
  if isPrefixAt text ('<' :: name) i then
    match indexOfStrFrom text ['>'] (i + 1 + name.length) with
    | some j => some (j + 1)
    | none => none
  else none

/-- Match of the regex `</name\s*>` at index `i`: `</name`, then a maximal
whitespace run, then `>`; returns the end index (exclusive). -/
def matchCloseAt (text name : List Char) (i : Nat) : Option Nat :=
  if isPrefixAt text ('<' :: '/' :: name) i then
    let j := i + 2 + name.length
    let k := j + ((text.drop j).takeWhile isJsSpace).length
    if isPrefixAt text ['>'] k then some (k + 1) else none
  else none

/-- Match of the generic opening-tag regex `<([A-Za-z][\dA-Za-z]*)[^>]*>` at
index `i`: captures the maximal alphanumeric name after `<` and ends just
past the first subsequent `>`; returns the captured name and the end index. -/
def matchAnyOpenAt (text : List Char) (i : Nat) : Option (List Char × Nat) :=
  if isPrefixAt text ['<'] i then
    match text.drop (i + 1) with
    | [] => none
    | c :: _ =>
      if isAsciiLetter c then
        let name := (text.drop (i + 1)).takeWhile isTagNameChar
        match indexOfStrFrom text ['>'] (i + 1 + name.length) with
        | some j => some (name, j + 1)
        | none => none
      else none
  else none

/-- Match of the generic closing-tag regex `<\/([A-Za-z][\dA-Za-z]*)\s*>` at
index `i`: captures the name and ends just past the `>` that follows an
optional whitespace run. -/
def matchAnyCloseAt (text : List Char) (i : Nat) : Option (List Char × Nat) :=
  if isPrefixAt text ['<', '/'] i then
    match text.drop (i + 2) with
    | [] => none
    | c :: _ =>
      if isAsciiLetter c then
        let name := (text.drop (i + 2)).takeWhile isTagNameChar
        let j := i + 2 + name.length
        let k := j + ((text.drop j).takeWhile isJsSpace).length
        if isPrefixAt text ['>'] k then some (name, k + 1) else none
      else none
  else none

/-- Match of the self-closing-tag regex `<([A-Za-z][\dA-Za-z]*)[^>]*\/>` at
index `i`: as the generic opening match, except the character right before
the closing `>` must be `/` (lying at or after the name end). -/
def matchSelfCloseAt (text : List Char) (i : Nat) : Option Nat :=
  if isPrefixAt text ['<'] i then
    match text.drop (i + 1) with
    | [] => none
    | c :: _ =>
      if isAsciiLetter c then
        let name := (text.drop (i + 1)).takeWhile isTagNameChar
        match indexOfStrFrom text ['>'] (i + 1 + name.length) with
        | some j =>
          if i + 1 + name.length ≤ j - 1 ∧ isPrefixAt text ['/'] (j - 1) then some (j + 1) else none
        | none => none
      else none
  else none

/-- First `<name[^>]*>` match at or after index `i` (regex scan order),
given fuel covering the remaining start positions; returns start and end. -/
def firstOpenMatchFrom (text name : List Char) : Nat → Nat → Option (Nat × Nat)
  | 0, _ => none
  | fuel + 1, i =>
    match matchOpenAt text name i with
    | some e => some (i, e)
    | none => firstOpenMatchFrom text name fuel (i + 1)

/-- First `<name[^>]*>` match in the text (a single `exec` on a fresh
regex). -/
def firstOpenMatch (text name : List Char) : Option (Nat × Nat) :=
  firstOpenMatchFrom text name (text.length + 1) 0

/-- Regex `test` for `<name[^>]*>`: whether any match exists. -/
def hasOpenMatch (text name : List Char) : Bool :=
  (firstOpenMatch text name).isSome

/-- First `</name\s*>` match at or after index `i`. -/
def firstCloseMatchFrom (text name : List Char) : Nat → Nat → Option (Nat × Nat)
  | 0, _ => none
  | fuel + 1, i =>
    match matchCloseAt text name i with
    | some e => some (i, e)
    | none => firstCloseMatchFrom text name fuel (i + 1)

/-- First generic opening-tag match at or after index `i`: start, captured
name and end. -/
def firstAnyOpenFrom (text : List Char) : Nat → Nat → Option (Nat × List Char × Nat)
  | 0, _ => none
  | fuel + 1, i =>
    match matchAnyOpenAt text i with
    | some (name, e) => some (i, name, e)
    | none => firstAnyOpenFrom text fuel (i + 1)

/-- First generic closing-tag match at or after index `i`. -/
def firstAnyCloseFrom (text : List Char) : Nat → Nat → Option (Nat × List Char × Nat)
  | 0, _ => none
  | fuel + 1, i =>
    match matchAnyCloseAt text i with
    | some (name, e) => some (i, name, e)
    | none => firstAnyCloseFrom text fuel (i + 1)

/-- First self-closing-tag match at or after index `i`: start and end. -/
def firstSelfCloseFrom (text : List Char) : Nat → Nat → Option (Nat × Nat)
  | 0, _ => none
  | fuel + 1, i =>
    match matchSelfCloseAt text i with
    | some e => some (i, e)
    | none => firstSelfCloseFrom text fuel (i + 1)

/-- The `exec` loop of the source's `findMatchingClosingTag`: walk the
`</name\s*>` matches from `lastIndex` on, skipping any whose gap back to
`afterPosition` contains a nested same-named opening tag. -/
def findMatchingClosingTagGo (text name : List Char) (afterPosition : Nat) :
    Nat → Nat → Option (Nat × Nat)
  | 0, _ => none
  | fuel + 1, lastIndex =>
    match firstCloseMatchFrom text name (text.length + 1 - lastIndex) lastIndex with
    | none => none
    | some (closingStart, closingEnd) =>
      let textBetween := jsSubstring text afterPosition closingStart
      if hasOpenMatch textBetween name then
        findMatchingClosingTagGo text name afterPosition fuel closingEnd
      else some (closingStart, closingEnd)

/-- The matching closing tag for an opening tag ending at `afterPosition`:
the nearest subsequent `</name\s*>` with no same-named opening tag in
between. -/
def findMatchingClosingTag (text name : List Char) (afterPosition : Nat) : Option (Nat × Nat) :=
  findMatchingClosingTagGo text name afterPosition (text.length + 1) afterPosition

/-- A well-formed tag pair: name and the two delimiter spans, as offsets. -/
structure TagPair where
  name : List Char
  openingStart : Nat
  openingEnd : Nat
  closingStart : Nat
  closingEnd : Nat
deriving DecidableEq

/-- The `exec` loop of the source's `findAllTagPairs`: walk all generic
opening-tag matches; each that has a matching closing tag contributes a
pair. -/
def findAllTagPairsGo (text : List Char) : Nat → Nat → List TagPair
  | 0, _ => []
  | fuel + 1, lastIndex =>
    match firstAnyOpenFrom text (text.length + 1 - lastIndex) lastIndex with
    | none => []
    | some (openingStart, tagName, openingEnd) =>
      let rest := findAllTagPairsGo text fuel openingEnd
      match findMatchingClosingTag text tagName openingEnd with
      | some closing => ⟨tagName, openingStart, openingEnd, closing.1, closing.2⟩ :: rest
      | none => rest

/-- All well-formed tag pairs of the document, in opening order. -/
def findAllTagPairs (text : List Char) : List TagPair :=
  findAllTagPairsGo text (text.length + 1) 0

/-- Whether an offset lies strictly between two offsets. -/
def isOffsetBetween (offset start stop : Nat) : Bool :=
  decide (offset > start ∧ offset < stop)

/-- An entry of `findAllSurroundingPairs`: descriptor, content range, text. -/
structure DetectedPair where
  pairType : PairType
  range : Range
  text : List Char
deriving DecidableEq

/-- Converts a tag pair to a detected pair: the content range runs from the
end of the opening tag to the start of the closing tag. -/
def createDetectedPair (state : EditorState) (tagPair : TagPair) : DetectedPair :=
  let openingEndPosition := offsetToPosition state tagPair.openingEnd
  let closingStartPosition := offsetToPosition state tagPair.closingStart
  let range : Range := ⟨openingEndPosition, closingStartPosition⟩
  { pairType := .tag tagPair.name
    range := range
    text := getTextFromRange state range }

/-- Tag portion of `findAllSurroundingPairs`: the well-formed tag pairs whose
inner span strictly contains the cursor offset. -/
def findSurroundingTagPairs (state : EditorState) : List DetectedPair :=
  let cursorOffset := positionToOffset state state.cursorPosition
  ((findAllTagPairs (documentText state)).filter
    (fun pair => isOffsetBetween cursorOffset pair.openingEnd pair.closingStart)).map
    (createDetectedPair state)

/-- The source's `findSurroundingTagPair`: take the first `<name[^>]*>` match
in the text before the cursor, locate the last occurrence of that exact
matched text (the source's `lastIndexOf`), pair it with the first literal
`</name>` after it, and accept only when the cursor lies strictly between.
The `lastIndexOf` cannot miss (the matched text occurs), so the `none` arm of
that lookup is unreachable. -/
def findSurroundingTagPair (state : EditorState) (text : List Char) (cursorOffset : Nat)
    (delimiter : List Char × List Char) : Option SelectionRangeWithPairResult :=
  let opening := delimiter.1
  let closing := delimiter.2
  let textBeforeCursor := text.take cursorOffset
  let tagName := (opening.drop 1).dropLast
  match firstOpenMatch textBeforeCursor tagName with
  | none => none
  | some m =>
    let openingTagMatch := jsSubstring textBeforeCursor m.1 m.2
    match lastIndexOfStr textBeforeCursor openingTagMatch with
    | none => none
    | some lastOpeningIndex =>
      let openingEnd := lastOpeningIndex + openingTagMatch.length
      let textAfterOpening := text.drop openingEnd
      match indexOfStr textAfterOpening closing with
      | none => none
      | some nextClosingIndex =>
        let closingStart := openingEnd + nextClosingIndex
        if cursorOffset ≤ openingEnd ∨ cursorOffset ≥ closingStart then none
        else
          some (createSelectionResult state
            ⟨lastOpeningIndex, openingEnd, closingStart, closingStart + closing.length⟩)

/-- The pair finder: convert the cursor to an offset, compute the delimiter
text, and dispatch on the descriptor family. -/
def findSurroundingPair (state : EditorState) (pair : PairType) :
    Option SelectionRangeWithPairResult :=
  let text := documentText state
  let cursorOffset := positionToOffset state state.cursorPosition
  let delimiter := getPairDelimiter pair
  match pair with
  | .basic _ => findSurroundingBasicPair state text cursorOffset delimiter
  | .tag _ => findSurroundingTagPair state text cursorOffset delimiter

/-- Query `findSurroundingPair` for each listed basic kind, keeping the
non-null results in order (the source's push loop). -/
def findPairsOfTypes (state : EditorState) (pairTypes : List BasicPairType) : List DetectedPair :=
  pairTypes.filterMap (fun pairType =>
    (findSurroundingPair state (.basic pairType)).map (fun result =>
      { pairType := .basic pairType
        range := result.range
        text := result.text.getD [] }))

/-- Quote entries of `findAllSurroundingPairs`. -/
def findQuotePairs (state : EditorState) : List DetectedPair :=
  findPairsOfTypes state quoteTypes

/-- Bracket entries of `findAllSurroundingPairs`. -/
def findBracketPairs (state : EditorState) : List DetectedPair :=
  findPairsOfTypes state bracketTypes

/-- All surrounding pairs at the cursor: quotes, then brackets, then tags. -/
def findAllSurroundingPairs (state : EditorState) : List DetectedPair :=
  findQuotePairs state ++ findBracketPairs state ++ findSurroundingTagPairs state

/-- The selection modes of the source's `RangeType` string union:
`entireLine` is the source's `"_"`, `currentSelection` is `"s"`,
`innerTag` is `"it"`, `entireTag` is `"at"`, `selfClosingTag` is `"st"`. -/
inductive RangeType
  | entireLine
  | currentSelection
  | innerTag
  | entireTag
  | selfClosingTag
deriving DecidableEq

/-- The regex search `search(/\S/)`: index of the first non-whitespace
character, if any. -/
def searchRegexNonWs : List Char → Nat → Option Nat
  | [], _ => none
  | ch :: rest, i => if isJsSpace ch then searchRegexNonWs rest (i + 1) else some i

/-- Index of the first non-whitespace character of a line. -/
def searchNonWhitespace (lineText : List Char) : Option Nat :=
  searchRegexNonWs lineText 0

/-- Entire-line selection: from the first non-whitespace character (column 0
when the line is empty or all whitespace) to the line length, on the cursor's
line; the delimiter spans are the empty ranges at both ends. -/
def selectEntireLine (state : EditorState) : SelectionRangeWithPairResult :=
  let line := state.cursorPosition.line
  let lineText := getLineText state line
  let effectiveStartCharacter := (searchNonWhitespace lineText).getD 0
  let endCharacter := lineText.length
  { range := ⟨⟨line, effectiveStartCharacter⟩, ⟨line, endCharacter⟩⟩
    startRange := ⟨⟨line, effectiveStartCharacter⟩, ⟨line, effectiveStartCharacter⟩⟩
    endRange := ⟨⟨line, endCharacter⟩, ⟨line, endCharacter⟩⟩
    text := some (jsSubstring lineText effectiveStartCharacter lineText.length) }

/-- Whether the selection is empty (same start and end line and character). -/
def isEmptySelection (selection : Range) : Bool :=
  decide (selection.start.line = selection.stop.line ∧
    selection.start.character = selection.stop.character)

/-- Current-selection mode: the host selection verbatim with its text; null
for an empty selection. -/
def selectCurrentSelection (state : EditorState) : Option SelectionRangeWithPairResult :=
  if isEmptySelection state.selection then none
  else
    some { range := state.selection
           startRange := ⟨state.selection.start, state.selection.start⟩
           endRange := ⟨state.selection.stop, state.selection.stop⟩
           text := some (getTextFromRange state state.selection) }

/-- The `exec` loop of `findClosingTagAfterCursor`: first generic closing-tag
match whose start is at or after the cursor offset (matches before the cursor
advance the scan past their end); returns name and start index. -/
def findClosingTagAfterCursorGo (text : List Char) (cursorOffset : Nat) :
    Nat → Nat → Option (List Char × Nat)
  | 0, _ => none
  | fuel + 1, lastIndex =>
    match firstAnyCloseFrom text (text.length + 1 - lastIndex) lastIndex with
    | none => none
    | some (s, name, e) =>
      if s ≥ cursorOffset then some (name, s)
      else findClosingTagAfterCursorGo text cursorOffset fuel e

/-- The closing tag at or after the cursor. -/
def findClosingTagAfterCursor (text : List Char) (cursorOffset : Nat) : Option (List Char × Nat) :=
  findClosingTagAfterCursorGo text cursorOffset (text.length + 1) 0

/-- The `exec` loop of `findMatchingOpeningTag`: scan every `<name[^>]*>`
match of the given text, keeping the start of the last one. -/
def lastOpenMatchGo (text name : List Char) : Nat → Nat → Option Nat → Option Nat
  | 0, _, best => best
  | fuel + 1, lastIndex, best =>
    match firstOpenMatchFrom text name (text.length + 1 - lastIndex) lastIndex with
    | none => best
    | some (s, e) => lastOpenMatchGo text name fuel e (some s)

/-- The textually last `<name[^>]*>` match before the closing tag. -/
def findMatchingOpeningTag (text tagName : List Char) (closingTagIndex : Nat) : Option Nat :=
  let textBeforeClosingTag := text.take closingTagIndex
  lastOpenMatchGo textBeforeClosingTag tagName (textBeforeClosingTag.length + 1) 0 none

/-- Inner-tag mode: the closing tag after the cursor, its matching opening
tag, and the content range between them (the source widens the spans by the
tag syntax: two extra characters for an opening tag, three for a closing
tag). -/
def findInnerTagContent (state : EditorState) : Option SelectionRangeWithPairResult :=
  let cursorOffset := positionToOffset state state.cursorPosition
  match findClosingTagAfterCursor (documentText state) cursorOffset with
  | none => none
  | some (name, closingIndex) =>
    match findMatchingOpeningTag (documentText state) name closingIndex with
    | none => none
    | some openingIndex =>
      let openingEndPosition := offsetToPosition state (openingIndex + name.length + 2)
      let closingStartPosition := offsetToPosition state closingIndex
      let range : Range := ⟨openingEndPosition, closingStartPosition⟩
      some { range := range
             startRange := ⟨offsetToPosition state openingIndex, openingEndPosition⟩
             endRange := ⟨closingStartPosition, offsetToPosition state (closingIndex + name.length + 3)⟩
             text := some (getTextFromRange state range) }

/-- Entire-tag mode: as `findInnerTagContent`, but the range covers both
delimiters. -/
def findEntireTag (state : EditorState) : Option SelectionRangeWithPairResult :=
  let cursorOffset := positionToOffset state state.cursorPosition
  match findClosingTagAfterCursor (documentText state) cursorOffset with
  | none => none
  | some (name, closingIndex) =>
    match findMatchingOpeningTag (documentText state) name closingIndex with
    | none => none
    | some openingIndex =>
      let openingStartPosition := offsetToPosition state openingIndex
      let closingEndPosition := offsetToPosition state (closingIndex + name.length + 3)
      let range : Range := ⟨openingStartPosition, closingEndPosition⟩
      some { range := range
             startRange := ⟨openingStartPosition, offsetToPosition state (openingIndex + name.length + 2)⟩
             endRange := ⟨offsetToPosition state closingIndex, closingEndPosition⟩
             text := some (getTextFromRange state range) }

/-- The `exec` loop of `findSelfClosingTag`: break on a match containing the
cursor; otherwise remember the first match strictly after the cursor. -/
def findSelfClosingTagGo (text : List Char) (cursorOffset : Nat) :
    Nat → Nat → Option (Nat × Nat) → Option (Nat × Nat)
  | 0, _, bestMatch => bestMatch
  | fuel + 1, lastIndex, bestMatch =>
    match firstSelfCloseFrom text (text.length + 1 - lastIndex) lastIndex with
    | none => bestMatch
    | some (startOffset, endOffset) =>
      if cursorOffset ≥ startOffset ∧ cursorOffset ≤ endOffset then some (startOffset, endOffset)
      else if startOffset > cursorOffset ∧ bestMatch = none then
        findSelfClosingTagGo text cursorOffset fuel endOffset (some (startOffset, endOffset))
      else findSelfClosingTagGo text cursorOffset fuel endOffset bestMatch

/-- Self-closing-tag mode: the self-closing tag containing the cursor, or
else the nearest one after it; both delimiter spans coincide with the whole
match. -/
def findSelfClosingTag (state : EditorState) : Option SelectionRangeWithPairResult :=
  let cursorOffset := positionToOffset state state.cursorPosition
  match findSelfClosingTagGo (documentText state) cursorOffset ((documentText state).length + 1) 0 none with
  | none => none
  | some best =>
    let startPosition := offsetToPosition state best.1
    let endPosition := offsetToPosition state best.2
    let range : Range := ⟨startPosition, endPosition⟩
    some { range := range
           startRange := range
           endRange := range
           text := some (getTextFromRange state range) }

/-- The range selector: dispatch on the selection mode. -/
def selectRange (rangeType : RangeType) (state : EditorState) :
    Option SelectionRangeWithPairResult :=
  match rangeType with
  | .entireLine => some (selectEntireLine state)
  | .currentSelection => selectCurrentSelection state
  | .innerTag => findInnerTagContent state
  | .entireTag => findEntireTag state
  | .selfClosingTag => findSelfClosingTag state

/-- The operation kinds of the edit generator. -/
inductive OperationType
  | add
  | delete
  | replace
deriving DecidableEq

/-- The character of each basic pair kind (the string-literal value of the
source's union member). -/
def basicPairChar : BasicPairType → Char
  | .paren => '('
  | .brace => lbraceChar
  | .sqBracket => '['
  | .angle => '<'
  | .squote => squoteChar
  | .dquote => dquoteChar
  | .backquote => backquoteChar

/-- The bracket test of the edit generator's module. -/
def isBrackets : BasicPairType → Bool
  | .paren | .brace | .sqBracket | .angle => true
  | _ => false

/-- The bracket-to-closer map of the edit generator's module; the default arm
mirrors the source's unreachable throw for non-bracket input (never taken:
`getPairParts` guards with `isBrackets`). -/
def getBracketClosing : BasicPairType → List Char
  | .paren => [')']
  | .brace => [rbraceChar]
  | .sqBracket => [']']
  | .angle => ['>']
  | b => [basicPairChar b]

/-- Opening and closing text of a destination pair, as computed by the edit
generator (independently of the pair finder's table). -/
def getPairParts : PairType → List Char × List Char
  | .basic b =>
    if isBrackets b then ([basicPairChar b], getBracketClosing b)
    else ([basicPairChar b], [basicPairChar b])
  | .tag name => ('<' :: name ++ ['>'], '<' :: '/' :: name ++ ['>'])

/-- A single text replacement. -/
structure TextEdit where
  range : Range
  newText : List Char
deriving DecidableEq

/-- The edit list returned by the generator. -/
abbrev TextEditResult := List TextEdit

/-- Add: two zero-width insertions at the content range's ends. -/
def addPair (ranges : SelectionRangeWithPairResult) (pair : PairType) : TextEditResult :=
  let parts := getPairParts pair
  [ { range := ⟨ranges.range.start, ranges.range.start⟩, newText := parts.1 }
  , { range := ⟨ranges.range.stop, ranges.range.stop⟩, newText := parts.2 } ]

/-- Delete: replace both delimiter spans with the empty string. -/
def deletePair (ranges : SelectionRangeWithPairResult) : TextEditResult :=
  [ { range := ranges.startRange, newText := [] }
  , { range := ranges.endRange, newText := [] } ]

/-- Replace: overwrite both delimiter spans with the destination pair's
delimiter text. -/
def replacePair (ranges : SelectionRangeWithPairResult) (destinationPair : PairType) : TextEditResult :=
  let parts := getPairParts destinationPair
  [ { range := ranges.startRange, newText := parts.1 }
  , { range := ranges.endRange, newText := parts.2 } ]

/-- The edit generator: add and delete always succeed; replace demands a
source pair and otherwise fails with the explicit error (the source throws).
The unknown-operation throw of the source is unrepresentable here because
the operation type is a closed union. -/
def getTextEdits (operation : OperationType) (ranges : SelectionRangeWithPairResult)
    (pair : PairType) (sourcePair : Option PairType) : Except String TextEditResult :=
  match operation with
  | .add => .ok (addPair ranges pair)
  | .delete => .ok (deletePair ranges)
  | .replace =>
    match sourcePair with
    | none => .error "Source pair is required for replace operation"
    | some _ => .ok (replacePair ranges pair)

/-- Total size (`length + 1` per line) of a line list; used to relate the
walk accumulator to the document text. -/
def sumLens (ls : List (List Char)) : Nat :=
  ls.foldr (fun l a => l.length + 1 + a) 0

/-- The editor snapshot used to probe `findSurroundingPair` against the
`offsetToPosition` walk ceiling: an opening parenthesis and one character on
the first line, 99999 empty lines, and the closing parenthesis alone on line
100000 (one line past the ceiling); the cursor sits just after the opening
parenthesis. -/
def c8State : EditorState :=
  ⟨['(', 'a'] :: (List.replicate 99999 [] ++ [[')']]), ⟨0, 1⟩, ⟨⟨0, 1⟩, ⟨0, 1⟩⟩⟩

/-- The document text of `c8State`, in closed form. -/
def c8Doc : List Char :=
  '(' :: 'a' :: (List.replicate 100000 '\n' ++ [')'])

theorem lineLensSum_lt_succ (state : EditorState) (n : Nat) :
    lineLensSum state n < lineLensSum state (n + 1) := by
  show lineLensSum state n < lineLensSum state n + ((getLineText state n).length + 1)
  omega

theorem lineLensSum_mono (state : EditorState) : ∀ {m n : Nat}, m ≤ n →
    lineLensSum state m ≤ lineLensSum state n := by
  intro m n h
  induction h with
  | refl => exact le_refl _
  | step _ ih => exact le_trans ih (le_of_lt (lineLensSum_lt_succ state _))

theorem self_le_lineLensSum (state : EditorState) (n : Nat) : n ≤ lineLensSum state n := by
  induction n with
  | zero => exact Nat.zero_le _
  | succ k ih =>
    have : lineLensSum state (k + 1) = lineLensSum state k + ((getLineText state k).length + 1) := rfl
    omega

theorem offsetToPositionGo_found (state : EditorState) (offset : Nat) :
    ∀ (fuel l j : Nat), l ≤ j → j < l + fuel →
    lineLensSum state j ≤ offset → offset < lineLensSum state (j + 1) →
    offsetToPositionGo state offset fuel l (lineLensSum state l) =
      ⟨j, offset - lineLensSum state j⟩ := by
  intro fuel
  induction fuel with
  | zero => intro l j h1 h2 _ _; omega
  | succ f ih =>
    intro l j h1 h2 h3 h4
    have hll : lineLensSum state (l + 1) = lineLensSum state l + ((getLineText state l).length + 1) := rfl
    by_cases hc : lineLensSum state l + ((getLineText state l).length + 1) > offset
    · have hjl : j = l := by
        by_contra hne
        have hstep : l + 1 ≤ j := by omega
        have := lineLensSum_mono state hstep
        omega
      subst hjl
      simp [offsetToPositionGo, hc]
    · have hjl : l + 1 ≤ j := by
        by_contra hne
        have : j = l := by omega
        subst this
        omega
      have hrec := ih (l + 1) j hjl (by omega) h3 h4
      rw [hll] at hrec
      simpa [offsetToPositionGo, hc] using hrec

theorem offsetToPositionGo_exhaust (state : EditorState) (offset : Nat) :
    ∀ (fuel l : Nat), lineLensSum state (l + fuel) ≤ offset →
    offsetToPositionGo state offset fuel l (lineLensSum state l) = ⟨0, 0⟩ := by
  intro fuel
  induction fuel with
  | zero => intro l _; simp [offsetToPositionGo]
  | succ f ih =>
    intro l h
    have hll : lineLensSum state (l + 1) = lineLensSum state l + ((getLineText state l).length + 1) := rfl
    have hmono : lineLensSum state (l + 1) ≤ lineLensSum state (l + (f + 1)) :=
      lineLensSum_mono state (by omega)
    have hc : ¬(lineLensSum state l + ((getLineText state l).length + 1) > offset) := by omega
    have hrec := ih (l + 1) (by rw [show l + 1 + f = l + (f + 1) by omega]; exact h)
    rw [hll] at hrec
    simpa [offsetToPositionGo, hc] using hrec

theorem exists_containing_line (state : EditorState) (offset : Nat) :
    ∀ n, offset < lineLensSum state n →
    ∃ j, j < n ∧ lineLensSum state j ≤ offset ∧ offset < lineLensSum state (j + 1) := by
  intro n
  induction n with
  | zero => intro h; exact absurd h (by simp [lineLensSum])
  | succ k ih =>
    intro h
    by_cases hk : offset < lineLensSum state k
    · obtain ⟨j, h1, h2, h3⟩ := ih hk
      exact ⟨j, by omega, h2, h3⟩
    · exact ⟨k, by omega, by omega, h⟩

theorem offsetToPosition_eq (state : EditorState) {offset j : Nat}
    (hj : j < MAX_LINES) (h1 : lineLensSum state j ≤ offset)
    (h2 : offset < lineLensSum state (j + 1)) :
    offsetToPosition state offset = ⟨j, offset - lineLensSum state j⟩ := by
  have h0 : lineLensSum state 0 = 0 := rfl
  have := offsetToPositionGo_found state offset MAX_LINES 0 j (Nat.zero_le _) (by omega) h1 h2
  rw [h0] at this
  exact this

theorem offsetToPosition_overflow (state : EditorState) {offset : Nat}
    (h : lineLensSum state MAX_LINES ≤ offset) :
    offsetToPosition state offset = ⟨0, 0⟩ := by
  have h0 : lineLensSum state 0 = 0 := rfl
  have := offsetToPositionGo_exhaust state offset MAX_LINES 0 (by simpa using h)
  rw [h0] at this
  exact this

theorem offsetToPosition_mono (state : EditorState) {a b : Nat}
    (hab : a ≤ b) (hb : b < lineLensSum state MAX_LINES) :
    posLe (offsetToPosition state a) (offsetToPosition state b) := by
  obtain ⟨ja, hja, ha1, ha2⟩ := exists_containing_line state a MAX_LINES (lt_of_le_of_lt hab hb)
  obtain ⟨jb, hjb, hb1, hb2⟩ := exists_containing_line state b MAX_LINES hb
  rw [offsetToPosition_eq state hja ha1 ha2, offsetToPosition_eq state hjb hb1 hb2]
  have hj : ja ≤ jb := by
    by_contra hcon
    have hstep : jb + 1 ≤ ja := by omega
    have := lineLensSum_mono state hstep
    omega
  rcases Nat.lt_or_ge ja jb with h | h
  · exact Or.inl h
  · have : ja = jb := by omega
    subst this
    refine Or.inr ⟨rfl, ?_⟩
    show a - lineLensSum state ja ≤ b - lineLensSum state ja
    omega

theorem sumLens_append (a b : List (List Char)) : sumLens (a ++ b) = sumLens a + sumLens b := by
  induction a with
  | nil => simp [sumLens]
  | cons x xs ih =>
    show x.length + 1 + sumLens (xs ++ b) = x.length + 1 + sumLens xs + sumLens b
    rw [ih]
    omega

theorem joinLines_length : ∀ ls : List (List Char), ls ≠ [] →
    (joinLines ls).length + 1 = sumLens ls
  | [l], _ => by simp [joinLines, sumLens]
  | l :: l' :: ls, _ => by
    have ih := joinLines_length (l' :: ls) (by simp)
    show (l ++ '\n' :: joinLines (l' :: ls)).length + 1 = _
    have hs : sumLens (l :: l' :: ls) = l.length + 1 + sumLens (l' :: ls) := rfl
    simp only [List.length_append, List.length_cons] at *
    omega

theorem lineLensSum_eq_sumLens_take (state : EditorState) :
    ∀ n, n ≤ state.lines.length → lineLensSum state n = sumLens (state.lines.take n) := by
  intro n
  induction n with
  | zero => intro _; simp [lineLensSum, sumLens]
  | succ k ih =>
    intro h
    have hk : k < state.lines.length := by omega
    have hstep : lineLensSum state (k + 1) =
        lineLensSum state k + ((getLineText state k).length + 1) := rfl
    rw [hstep, ih (by omega), List.take_succ, sumLens_append]
    have hget : state.lines[k]? = some state.lines[k] := List.getElem?_eq_getElem hk
    have hgl : getLineText state k = state.lines[k] := List.getD_eq_getElem _ _ hk
    rw [hget, hgl]
    show _ = _ + sumLens [state.lines[k]]
    simp [sumLens]

theorem offset_lt_ceiling (state : EditorState) {offset : Nat}
    (hL : state.lines.length ≤ MAX_LINES)
    (h : offset ≤ (documentText state).length) :
    offset < lineLensSum state MAX_LINES := by
  rcases eq_or_ne state.lines [] with he | he
  · have hdoc : (documentText state).length = 0 := by simp [documentText, he, joinLines]
    have h1 : (1 : Nat) ≤ MAX_LINES := by decide
    have h2 := self_le_lineLensSum state MAX_LINES
    omega
  · have h1 : (documentText state).length + 1 = sumLens state.lines := by
      simpa [documentText] using joinLines_length state.lines he
    have h2 : lineLensSum state state.lines.length = sumLens state.lines := by
      rw [lineLensSum_eq_sumLens_take state _ le_rfl, List.take_length]
    have h3 := lineLensSum_mono state hL
    omega

theorem offsetToPositionIterGo_count (state : EditorState) (offset : Nat) :
    ∀ fuel line currentOffset,
    (offsetToPositionIterGo state offset fuel line currentOffset).2 ≤ fuel := by
  intro fuel
  induction fuel with
  | zero => intro line c; simp [offsetToPositionIterGo]
  | succ f ih =>
    intro line c
    by_cases hc : c + ((getLineText state line).length + 1) > offset
    · simp [offsetToPositionIterGo, hc]
    · have hrec := ih (line + 1) (c + ((getLineText state line).length + 1))
      simp [offsetToPositionIterGo, hc]
      omega

theorem offsetToPositionIterGo_fst (state : EditorState) (offset : Nat) :
    ∀ fuel line currentOffset,
    (offsetToPositionIterGo state offset fuel line currentOffset).1 =
      offsetToPositionGo state offset fuel line currentOffset := by
  intro fuel
  induction fuel with
  | zero => intro line c; simp [offsetToPositionIterGo, offsetToPositionGo]
  | succ f ih =>
    intro line c
    by_cases hc : c + ((getLineText state line).length + 1) > offset
    · simp [offsetToPositionIterGo, offsetToPositionGo, hc]
    · simp only [offsetToPositionIterGo, offsetToPositionGo, if_neg hc]
      exact ih _ _

theorem isPrefixAt_iff {text pat : List Char} {i : Nat} :
    isPrefixAt text pat i = true ↔ pat <+: text.drop i := by
  simp [isPrefixAt, List.isPrefixOf_iff_prefix]

theorem isPrefixAt_length {text pat : List Char} {i : Nat} (hne : pat ≠ [])
    (h : isPrefixAt text pat i = true) : i + pat.length ≤ text.length := by
  rw [isPrefixAt_iff] at h
  have hlen := h.length_le
  rw [List.length_drop] at hlen
  by_cases hi : i ≤ text.length
  · omega
  · exfalso
    have hd : text.drop i = [] := List.drop_eq_nil_of_le (by omega)
    rw [hd] at h
    exact hne (List.prefix_nil.mp h)

theorem isPrefixAt_single {text : List Char} {c : Char} {i : Nat} :
    isPrefixAt text [c] i = true ↔ text[i]? = some c := by
  rw [isPrefixAt_iff]
  constructor
  · intro h
    obtain ⟨t, ht⟩ := h
    have hh : (text.drop i).head? = some c := by rw [← ht]; rfl
    rwa [List.head?_drop] at hh
  · intro h
    have hh : (text.drop i).head? = some c := by rw [List.head?_drop]; exact h
    rcases hd : text.drop i with _ | ⟨x, xs⟩
    · rw [hd] at hh; simp at hh
    · rw [hd] at hh
      simp at hh
      subst hh
      exact ⟨xs, rfl⟩

theorem isPrefixAt_append {text p1 p2 : List Char} {i : Nat}
    (h1 : isPrefixAt text p1 i = true) (h2 : isPrefixAt text p2 (i + p1.length) = true) :
    isPrefixAt text (p1 ++ p2) i = true := by
  rw [isPrefixAt_iff] at h1 h2 ⊢
  obtain ⟨t1, ht1⟩ := h1
  have hdrop : text.drop (i + p1.length) = t1 := by
    rw [← List.drop_drop, ← ht1, List.drop_left]
  rw [hdrop] at h2
  obtain ⟨t2, ht2⟩ := h2
  exact ⟨t2, by rw [← ht1, ← ht2, List.append_assoc]⟩

theorem isPrefixAt_append_elim {text p1 p2 : List Char} {i : Nat}
    (h : isPrefixAt text (p1 ++ p2) i = true) :
    isPrefixAt text p1 i = true ∧ isPrefixAt text p2 (i + p1.length) = true := by
  rw [isPrefixAt_iff] at h
  obtain ⟨t, ht⟩ := h
  rw [List.append_assoc] at ht
  constructor
  · rw [isPrefixAt_iff]
    exact ⟨p2 ++ t, ht⟩
  · rw [isPrefixAt_iff]
    have hdrop : text.drop (i + p1.length) = p2 ++ t := by
      rw [← List.drop_drop, ← ht, List.drop_left]
    rw [hdrop]
    exact ⟨t, rfl⟩

theorem isPrefixAt_take {text pat : List Char} {i : Nat}
    (h : isPrefixAt text pat i = true) :
    (text.drop i).take pat.length = pat := by
  rw [isPrefixAt_iff] at h
  exact (List.prefix_iff_eq_take.mp h).symm

theorem scanIdxFrom_some {text pat : List Char} :
    ∀ {fuel i f : Nat}, scanIdxFrom text pat fuel i = some f →
    i ≤ f ∧ f < i + fuel ∧ isPrefixAt text pat f = true ∧
      ∀ j, i ≤ j → j < f → isPrefixAt text pat j = false := by
  intro fuel
  induction fuel with
  | zero => intro i f h; simp [scanIdxFrom] at h
  | succ fl ih =>
    intro i f h
    by_cases hp : isPrefixAt text pat i = true
    · simp [scanIdxFrom, hp] at h
      subst h
      exact ⟨le_refl _, by omega, hp, fun j h1 h2 => by omega⟩
    · have hp' : isPrefixAt text pat i = false := by simpa using hp
      rw [scanIdxFrom, if_neg (by simp [hp'])] at h
      obtain ⟨h1, h2, h3, h4⟩ := ih h
      refine ⟨by omega, by omega, h3, fun j hj1 hj2 => ?_⟩
      rcases eq_or_lt_of_le hj1 with he | hl
      · rw [← he]; exact hp'
      · exact h4 j (by omega) hj2

theorem scanIdxFrom_none {text pat : List Char} :
    ∀ {fuel i : Nat}, scanIdxFrom text pat fuel i = none →
    ∀ j, i ≤ j → j < i + fuel → isPrefixAt text pat j = false := by
  intro fuel
  induction fuel with
  | zero => intro i _ j h1 h2; omega
  | succ fl ih =>
    intro i h j h1 h2
    by_cases hp : isPrefixAt text pat i = true
    · simp [scanIdxFrom, hp] at h
    · have hp' : isPrefixAt text pat i = false := by simpa using hp
      rw [scanIdxFrom, if_neg (by simp [hp'])] at h
      rcases eq_or_lt_of_le h1 with he | hl
      · rw [← he]; exact hp'
      · exact ih h j (by omega) (by omega)

theorem scanIdxFrom_eq_some {text pat : List Char} :
    ∀ {fuel i f : Nat}, i ≤ f → f < i + fuel → isPrefixAt text pat f = true →
    (∀ j, i ≤ j → j < f → isPrefixAt text pat j = false) →
    scanIdxFrom text pat fuel i = some f := by
  intro fuel
  induction fuel with
  | zero => intro i f h1 h2 _ _; omega
  | succ fl ih =>
    intro i f h1 h2 h3 h4
    rcases eq_or_lt_of_le h1 with he | hl
    · subst he
      simp [scanIdxFrom, h3]
    · have hp : isPrefixAt text pat i = false := h4 i (le_refl _) hl
      rw [scanIdxFrom, if_neg (by simp [hp])]
      exact ih (by omega) (by omega) h3 (fun j hj1 hj2 => h4 j (by omega) hj2)

theorem scanIdxFrom_eq_none {text pat : List Char} :
    ∀ {fuel i : Nat}, (∀ j, i ≤ j → j < i + fuel → isPrefixAt text pat j = false) →
    scanIdxFrom text pat fuel i = none := by
  intro fuel
  induction fuel with
  | zero => intro i _; rfl
  | succ fl ih =>
    intro i h
    have hp : isPrefixAt text pat i = false := h i (le_refl _) (by omega)
    rw [scanIdxFrom, if_neg (by simp [hp])]
    exact ih (fun j hj1 hj2 => h j (by omega) (by omega))

theorem indexOfStrFrom_some {text pat : List Char} {si f : Nat}
    (h : indexOfStrFrom text pat si = some f) :
    si ≤ f ∧ isPrefixAt text pat f = true ∧
      ∀ j, si ≤ j → j < f → isPrefixAt text pat j = false := by
  obtain ⟨h1, _, h3, h4⟩ := scanIdxFrom_some h
  exact ⟨h1, h3, h4⟩

theorem indexOfStrFrom_none {text pat : List Char} {si : Nat} (hne : pat ≠ [])
    (h : indexOfStrFrom text pat si = none) :
    ∀ j, si ≤ j → isPrefixAt text pat j = false := by
  intro j hj
  by_cases hb : j < si + (text.length + 1 - si)
  · exact scanIdxFrom_none h j hj hb
  · by_contra hp
    have hp' : isPrefixAt text pat j = true := by simpa using hp
    have := isPrefixAt_length hne hp'
    have hlenpat : 1 ≤ pat.length := by
      cases pat with
      | nil => exact absurd rfl hne
      | cons a l => simp
    omega

theorem indexOfStrFrom_eq_some {text pat : List Char} {si f : Nat} (hne : pat ≠ [])
    (h1 : si ≤ f) (h2 : isPrefixAt text pat f = true)
    (h3 : ∀ j, si ≤ j → j < f → isPrefixAt text pat j = false) :
    indexOfStrFrom text pat si = some f := by
  have hlen := isPrefixAt_length hne h2
  have hlenpat : 1 ≤ pat.length := by
    cases pat with
    | nil => exact absurd rfl hne
    | cons a l => simp
  exact scanIdxFrom_eq_some h1 (by omega) h2 h3

theorem indexOfStrFrom_eq_none {text pat : List Char} {si : Nat}
    (h : ∀ j, si ≤ j → isPrefixAt text pat j = false) :
    indexOfStrFrom text pat si = none :=
  scanIdxFrom_eq_none (fun j hj _ => h j hj)

theorem findAllOccurrencesGo_spec {text pat : List Char} :
    ∀ fuel si, List.Pairwise (· < ·) (findAllOccurrencesGo text pat fuel si) ∧
      ∀ x ∈ findAllOccurrencesGo text pat fuel si, si ≤ x ∧ isPrefixAt text pat x = true := by
  intro fuel
  induction fuel with
  | zero => intro si; simp [findAllOccurrencesGo]
  | succ fl ih =>
    intro si
    by_cases hsi : si < text.length
    · cases hidx : indexOfStrFrom text pat si with
      | none => simp [findAllOccurrencesGo, hsi, hidx]
      | some f =>
        obtain ⟨h1, h2, _⟩ := indexOfStrFrom_some hidx
        obtain ⟨ihs, ihm⟩ := ih (f + 1)
        constructor
        · rw [findAllOccurrencesGo, if_pos hsi, hidx]
          rw [List.pairwise_cons]
          exact ⟨fun y hy => by have := (ihm y hy).1; omega, ihs⟩
        · intro x hx
          rw [findAllOccurrencesGo, if_pos hsi, hidx] at hx
          rcases List.mem_cons.mp hx with rfl | hx
          · exact ⟨h1, h2⟩
          · obtain ⟨hx1, hx2⟩ := ihm x hx
            exact ⟨by omega, hx2⟩
    · simp [findAllOccurrencesGo, hsi]

theorem findAllOccurrences_sorted {text pat : List Char} :
    List.Pairwise (· < ·) (findAllOccurrences text pat) :=
  (findAllOccurrencesGo_spec _ 0).1

theorem findAllOccurrences_mem {text pat : List Char} :
    ∀ x ∈ findAllOccurrences text pat, isPrefixAt text pat x = true :=
  fun x hx => ((findAllOccurrencesGo_spec _ 0).2 x hx).2

theorem pairConsecutive_mem : ∀ (l : List Nat) (p : Nat × Nat),
    p ∈ pairConsecutive l → p.1 ∈ l ∧ p.2 ∈ l
  | [], p, h => by simp [pairConsecutive] at h
  | [a], p, h => by simp [pairConsecutive] at h
  | a :: b :: rest, p, h => by
    rw [pairConsecutive] at h
    rcases List.mem_cons.mp h with rfl | h
    · simp
    · obtain ⟨h1, h2⟩ := pairConsecutive_mem rest p h
      constructor
      · exact List.mem_cons_of_mem _ (List.mem_cons_of_mem _ h1)
      · exact List.mem_cons_of_mem _ (List.mem_cons_of_mem _ h2)

theorem pairConsecutive_struct : ∀ (l : List Nat), List.Pairwise (· < ·) l →
    (∀ p ∈ pairConsecutive l, p.1 < p.2) ∧
      List.Pairwise (fun p q : Nat × Nat => p.2 < q.1) (pairConsecutive l) ∧
      List.Pairwise (fun p q : Nat × Nat => p.2 < q.2) (pairConsecutive l)
  | [], _ => by simp [pairConsecutive]
  | [a], _ => by simp [pairConsecutive]
  | a :: b :: rest, h => by
    rw [List.pairwise_cons] at h
    obtain ⟨ha, h⟩ := h
    rw [List.pairwise_cons] at h
    obtain ⟨hb, h⟩ := h
    obtain ⟨ih1, ih2, ih3⟩ := pairConsecutive_struct rest h
    have hab : a < b := ha b (by simp)
    refine ⟨?_, ?_, ?_⟩
    · intro p hp
      rw [pairConsecutive] at hp
      rcases List.mem_cons.mp hp with rfl | hp
      · exact hab
      · exact ih1 p hp
    · rw [pairConsecutive, List.pairwise_cons]
      refine ⟨?_, ih2⟩
      intro q hq
      have := (pairConsecutive_mem rest q hq).1
      exact hb _ this
    · rw [pairConsecutive, List.pairwise_cons]
      refine ⟨?_, ih3⟩
      intro q hq
      have := (pairConsecutive_mem rest q hq).2
      exact hb _ this

theorem quoteGo_nil (c cl : Nat) (best : Option (Nat × Nat)) (minD : Nat) :
    findSurroundingQuotePairGo c cl [] best minD = best := rfl

theorem quoteGo_cons (c cl : Nat) (a : Nat × Nat) (rest : List (Nat × Nat))
    (best : Option (Nat × Nat)) (minD : Nat) :
    findSurroundingQuotePairGo c cl (a :: rest) best minD =
      if a.1 < c ∧ c ≤ a.2 then some a
      else if c = a.2 + cl then some a
      else if a.2 ≤ c then
        if c - a.2 < minD then findSurroundingQuotePairGo c cl rest (some a) (c - a.2)
        else findSurroundingQuotePairGo c cl rest best minD
      else findSurroundingQuotePairGo c cl rest best minD := rfl

theorem quoteGo_mem (c cl : Nat) :
    ∀ (l : List (Nat × Nat)) (best : Option (Nat × Nat)) (minD : Nat) (p : Nat × Nat),
    findSurroundingQuotePairGo c cl l best minD = some p → p ∈ l ∨ best = some p := by
  intro l
  induction l with
  | nil => intro best minD p h; rw [quoteGo_nil] at h; exact Or.inr h
  | cons a rest ih =>
    intro best minD p h
    rw [quoteGo_cons] at h
    by_cases h1 : a.1 < c ∧ c ≤ a.2
    · rw [if_pos h1, Option.some_inj] at h
      exact Or.inl (h ▸ List.mem_cons_self _ _)
    · rw [if_neg h1] at h
      by_cases h2 : c = a.2 + cl
      · rw [if_pos h2, Option.some_inj] at h
        exact Or.inl (h ▸ List.mem_cons_self _ _)
      · rw [if_neg h2] at h
        by_cases h3 : a.2 ≤ c
        · rw [if_pos h3] at h
          by_cases h4 : c - a.2 < minD
          · rw [if_pos h4] at h
            rcases ih _ _ _ h with hm | hb
            · exact Or.inl (List.mem_cons_of_mem _ hm)
            · rw [Option.some_inj] at hb
              exact Or.inl (hb ▸ List.mem_cons_self _ _)
          · rw [if_neg h4] at h
            rcases ih _ _ _ h with hm | hb
            · exact Or.inl (List.mem_cons_of_mem _ hm)
            · exact Or.inr hb
        · rw [if_neg h3] at h
          rcases ih _ _ _ h with hm | hb
          · exact Or.inl (List.mem_cons_of_mem _ hm)
          · exact Or.inr hb

theorem quoteGo_break (c cl : Nat) :
    ∀ (l : List (Nat × Nat)) (best : Option (Nat × Nat)) (minD : Nat) (p : Nat × Nat),
    p ∈ l →
    ((p.1 < c ∧ c ≤ p.2) ∨ c = p.2 + cl) →
    (∀ q ∈ l, q ≠ p → ¬((q.1 < c ∧ c ≤ q.2) ∨ c = q.2 + cl)) →
    findSurroundingQuotePairGo c cl l best minD = some p := by
  intro l
  induction l with
  | nil => intro best minD p h; simp at h
  | cons a rest ih =>
    intro best minD p hp hcond hothers
    rw [quoteGo_cons]
    by_cases hap : a = p
    · subst hap
      by_cases h1 : a.1 < c ∧ c ≤ a.2
      · rw [if_pos h1]
      · rw [if_neg h1]
        rcases hcond with hcl | hcr
        · exact absurd hcl h1
        · rw [if_pos hcr]
    · have hna := hothers a (List.mem_cons_self _ _) hap
      rw [not_or] at hna
      rw [if_neg hna.1, if_neg hna.2]
      have hprest : p ∈ rest := by
        rcases List.mem_cons.mp hp with rfl | h
        · exact absurd rfl hap
        · exact h
      have hor : ∀ q ∈ rest, q ≠ p → ¬((q.1 < c ∧ c ≤ q.2) ∨ c = q.2 + cl) :=
        fun q hq => hothers q (List.mem_cons_of_mem _ hq)
      by_cases h3 : a.2 ≤ c
      · rw [if_pos h3]
        by_cases h4 : c - a.2 < minD
        · rw [if_pos h4]; exact ih _ _ _ hprest hcond hor
        · rw [if_neg h4]; exact ih _ _ _ hprest hcond hor
      · rw [if_neg h3]; exact ih _ _ _ hprest hcond hor

theorem quoteGo_skip (c cl : Nat) :
    ∀ (l : List (Nat × Nat)) (best : Option (Nat × Nat)) (minD : Nat),
    (∀ q ∈ l, ¬((q.1 < c ∧ c ≤ q.2) ∨ c = q.2 + cl) ∧ ¬(q.2 ≤ c)) →
    findSurroundingQuotePairGo c cl l best minD = best := by
  intro l
  induction l with
  | nil => intro best minD _; rfl
  | cons a rest ih =>
    intro best minD h
    obtain ⟨hna, hn3⟩ := h a (List.mem_cons_self _ _)
    rw [not_or] at hna
    rw [quoteGo_cons, if_neg hna.1, if_neg hna.2, if_neg hn3]
    exact ih _ _ (fun q hq => h q (List.mem_cons_of_mem _ hq))

theorem quoteGo_fallback (c cl : Nat) :
    ∀ (l : List (Nat × Nat)) (best : Option (Nat × Nat)) (minD : Nat) (p0 : Nat × Nat),
    (∀ q ∈ l, ¬((q.1 < c ∧ c ≤ q.2) ∨ c = q.2 + cl)) →
    List.Pairwise (fun p q : Nat × Nat => p.2 < q.2) l →
    p0 ∈ l → p0.2 ≤ c →
    (∀ q ∈ l, q.2 ≤ c → q.2 ≤ p0.2) →
    (∀ q ∈ l, q.2 ≤ c → c - q.2 < minD) →
    findSurroundingQuotePairGo c cl l best minD = some p0 := by
  intro l
  induction l with
  | nil => intro best minD p0 _ _ h; simp at h
  | cons a rest ih =>
    intro best minD p0 hnc hsorted hp0 hq0 hmax hdist
    have hna := hnc a (List.mem_cons_self _ _)
    rw [not_or] at hna
    rw [List.pairwise_cons] at hsorted
    obtain ⟨ha_lt, hsorted'⟩ := hsorted
    rw [quoteGo_cons, if_neg hna.1, if_neg hna.2]
    by_cases h3 : a.2 ≤ c
    · rw [if_pos h3, if_pos (hdist a (List.mem_cons_self _ _) h3)]
      by_cases hap : a = p0
      · subst hap
        apply quoteGo_skip
        intro q hq
        have hq2 : a.2 < q.2 := ha_lt q hq
        refine ⟨hnc q (List.mem_cons_of_mem _ hq), ?_⟩
        intro hqc
        have := hmax q (List.mem_cons_of_mem _ hq) hqc
        omega
      · have hprest : p0 ∈ rest := by
          rcases List.mem_cons.mp hp0 with rfl | h
          · exact absurd rfl hap
          · exact h
        apply ih
        · exact fun q hq => hnc q (List.mem_cons_of_mem _ hq)
        · exact hsorted'
        · exact hprest
        · exact hq0
        · exact fun q hq => hmax q (List.mem_cons_of_mem _ hq)
        · intro q hq hqc
          have hq2 : a.2 < q.2 := ha_lt q hq
          omega
    · rw [if_neg h3]
      have hap : a ≠ p0 := by
        intro he
        rw [he] at h3
        exact h3 hq0
      have hprest : p0 ∈ rest := by
        rcases List.mem_cons.mp hp0 with rfl | h
        · exact absurd rfl hap
        · exact h
      apply ih
      · exact fun q hq => hnc q (List.mem_cons_of_mem _ hq)
      · exact hsorted'
      · exact hprest
      · exact hq0
      · exact fun q hq => hmax q (List.mem_cons_of_mem _ hq)
      · exact fun q hq => hdist q (List.mem_cons_of_mem _ hq)

theorem foldl_pick_spec {α : Type} (size : α → Nat) (f : α → α → α)
    (hf : ∀ s x, (f s x = x ∨ f s x = s) ∧ size (f s x) ≤ size s ∧ size (f s x) ≤ size x) :
    ∀ (l : List α) (init : α),
    (List.foldl f init l = init ∨ List.foldl f init l ∈ l) ∧
      size (List.foldl f init l) ≤ size init ∧
      ∀ x ∈ l, size (List.foldl f init l) ≤ size x := by
  intro l
  induction l with
  | nil => intro init; exact ⟨Or.inl rfl, le_refl _, by simp⟩
  | cons a rest ih =>
    intro init
    rw [List.foldl_cons]
    obtain ⟨ih1, ih2, ih3⟩ := ih (f init a)
    obtain ⟨hfa1, hfa2, hfa3⟩ := hf init a
    refine ⟨?_, ?_, ?_⟩
    · rcases ih1 with h | h
      · rcases hfa1 with he | he
        · exact Or.inr (by rw [h, he]; exact List.mem_cons_self _ _)
        · exact Or.inl (by rw [h, he])
      · exact Or.inr (List.mem_cons_of_mem _ h)
    · exact le_trans ih2 hfa2
    · intro x hx
      rcases List.mem_cons.mp hx with rfl | hx
      · exact le_trans ih2 hfa3
      · exact ih3 x hx

theorem minSpan_pick_spec :
    ∀ s x : Nat × Nat,
    ((if x.2 - x.1 < s.2 - s.1 then x else s) = x ∨ (if x.2 - x.1 < s.2 - s.1 then x else s) = s) ∧
      ((if x.2 - x.1 < s.2 - s.1 then x else s).2 - (if x.2 - x.1 < s.2 - s.1 then x else s).1 ≤ s.2 - s.1) ∧
      ((if x.2 - x.1 < s.2 - s.1 then x else s).2 - (if x.2 - x.1 < s.2 - s.1 then x else s).1 ≤ x.2 - x.1) := by
  intro s x
  by_cases hc : x.2 - x.1 < s.2 - s.1
  · rw [if_pos hc]
    exact ⟨Or.inl rfl, by omega, le_refl _⟩
  · rw [if_neg hc]
    exact ⟨Or.inr rfl, le_refl _, by omega⟩

theorem fsppInner_eq (c : Nat) : ∀ (cs : List Nat) (o : Nat), o < c →
    findSurroundingPairPositionInner c o cs = cs.find? (fun k => decide (c < k)) := by
  intro cs
  induction cs with
  | nil => intro o _; rfl
  | cons k rest ih =>
    intro o ho
    rw [findSurroundingPairPositionInner]
    by_cases h1 : k ≤ o
    · rw [if_pos h1, ih o ho, List.find?_cons_of_neg _ (by simp; omega)]
    · rw [if_neg h1]
      by_cases h2 : c > o ∧ c < k
      · rw [if_pos h2, List.find?_cons_of_pos _ (by simp [h2.2])]
      · rw [if_neg h2]
        have hck : ¬ c < k := by
          intro hc
          exact h2 ⟨ho, hc⟩
        rw [ih o ho, List.find?_cons_of_neg _ (by simp [hck])]

theorem fsppGo_eq (c : Nat) (cs : List Nat) (ol cl : Nat) :
    ∀ os : List Nat,
    findSurroundingPairPositionGo c cs ol cl os =
      match os.find? (fun o => decide (o < c)) with
      | none => none
      | some o0 =>
        match cs.find? (fun k => decide (c < k)) with
        | none => none
        | some k0 => some ⟨o0, o0 + ol, k0, k0 + cl⟩ := by
  intro os
  induction os with
  | nil => rfl
  | cons o rest ih =>
    rw [findSurroundingPairPositionGo]
    by_cases h1 : o ≥ c
    · rw [if_pos h1, ih, List.find?_cons_of_neg _ (by simp; omega)]
    · rw [if_neg h1]
      have ho : o < c := by omega
      rw [fsppInner_eq c cs o ho, List.find?_cons_of_pos _ (by simp [ho])]
      cases hcs : cs.find? (fun k => decide (c < k)) with
      | some k0 => rfl
      | none =>
        rw [ih]
        cases rest.find? (fun o => decide (o < c)) with
        | none => rfl
        | some o1 => rw [hcs]

theorem find?_lt_min {c : Nat} : ∀ {l : List Nat}, List.Pairwise (· < ·) l →
    ∀ {o0 : Nat}, l.find? (fun o => decide (o < c)) = some o0 →
    o0 ∈ l ∧ o0 < c ∧ ∀ o ∈ l, o0 ≤ o := by
  intro l
  induction l with
  | nil => intro _ o0 h; simp at h
  | cons a rest ih =>
    intro hs o0 h
    rw [List.pairwise_cons] at hs
    obtain ⟨ha, hs'⟩ := hs
    by_cases hc : a < c
    · rw [List.find?_cons_of_pos _ (by simp [hc]), Option.some_inj] at h
      subst h
      refine ⟨List.mem_cons_self _ _, hc, ?_⟩
      intro o hoin
      rcases List.mem_cons.mp hoin with rfl | hoin
      · exact le_refl _
      · exact le_of_lt (ha o hoin)
    · rw [List.find?_cons_of_neg _ (by simp [hc])] at h
      obtain ⟨h1, h2, h3⟩ := ih hs' h
      refine ⟨List.mem_cons_of_mem _ h1, h2, ?_⟩
      intro o hoin
      rcases List.mem_cons.mp hoin with rfl | hoin
      · omega
      · exact h3 o hoin

theorem find?_gt_first {c : Nat} : ∀ {l : List Nat}, List.Pairwise (· < ·) l →
    ∀ {k0 : Nat}, l.find? (fun k => decide (c < k)) = some k0 →
    k0 ∈ l ∧ c < k0 ∧ ∀ k ∈ l, c < k → k0 ≤ k := by
  intro l
  induction l with
  | nil => intro _ k0 h; simp at h
  | cons a rest ih =>
    intro hs k0 h
    rw [List.pairwise_cons] at hs
    obtain ⟨ha, hs'⟩ := hs
    by_cases hc : c < a
    · rw [List.find?_cons_of_pos _ (by simp [hc]), Option.some_inj] at h
      subst h
      refine ⟨List.mem_cons_self _ _, hc, ?_⟩
      intro k hkin _
      rcases List.mem_cons.mp hkin with rfl | hkin
      · exact le_refl _
      · exact le_of_lt (ha k hkin)
    · rw [List.find?_cons_of_neg _ (by simp [hc])] at h
      obtain ⟨h1, h2, h3⟩ := ih hs' h
      refine ⟨List.mem_cons_of_mem _ h1, h2, ?_⟩
      intro k hkin hck
      rcases List.mem_cons.mp hkin with rfl | hkin
      · omega
      · exact h3 k hkin hck

theorem mergeByIndexGo_mem : ∀ (fuel : Nat) (os cs : List (Nat × Bool)) (x : Nat × Bool),
    x ∈ mergeByIndexGo fuel os cs → x ∈ os ∨ x ∈ cs := by
  intro fuel
  induction fuel with
  | zero => intro os cs x h; rw [mergeByIndexGo] at h; exact List.mem_append.mp h
  | succ f ih =>
    intro os cs x h
    cases os with
    | nil => rw [mergeByIndexGo] at h; exact Or.inr h
    | cons o os' =>
      cases cs with
      | nil => rw [mergeByIndexGo] at h; exact Or.inl h
      | cons c0 cs' =>
        rw [mergeByIndexGo] at h
        by_cases hle : o.1 ≤ c0.1
        · rw [if_pos hle] at h
          rcases List.mem_cons.mp h with rfl | h
          · exact Or.inl (List.mem_cons_self _ _)
          · rcases ih os' (c0 :: cs') x h with h | h
            · exact Or.inl (List.mem_cons_of_mem _ h)
            · exact Or.inr h
        · rw [if_neg hle] at h
          rcases List.mem_cons.mp h with rfl | h
          · exact Or.inr (List.mem_cons_self _ _)
          · rcases ih (o :: os') cs' x h with h | h
            · exact Or.inl h
            · exact Or.inr (List.mem_cons_of_mem _ h)

theorem stackPairsGo_spec (PO PC : Nat → Prop) :
    ∀ (events : List (Nat × Bool)) (stack : List Nat) (acc : List (Nat × Nat)),
    (∀ ev ∈ events, (ev.2 = true → PO ev.1) ∧ (ev.2 = false → PC ev.1)) →
    (∀ s ∈ stack, PO s) →
    (∀ p ∈ acc, PO p.1 ∧ PC p.2) →
    ∀ p ∈ stackPairsGo events stack acc, PO p.1 ∧ PC p.2 := by
  intro events
  induction events with
  | nil => intro stack acc _ _ hacc p hp; rw [stackPairsGo] at hp; exact hacc p hp
  | cons ev rest ih =>
    intro stack acc hev hstack hacc p hp
    obtain ⟨i, b⟩ := ev
    have hev0 := hev (i, b) (List.mem_cons_self _ _)
    have hevr : ∀ e ∈ rest, (e.2 = true → PO e.1) ∧ (e.2 = false → PC e.1) :=
      fun e he => hev e (List.mem_cons_of_mem _ he)
    cases b
    · cases stack with
      | nil =>
        rw [stackPairsGo] at hp
        exact ih [] acc hevr (by simp) hacc p hp
      | cons top st =>
        rw [stackPairsGo] at hp
        refine ih st (acc ++ [(top, i)]) hevr (fun s hs => hstack s (List.mem_cons_of_mem _ hs)) ?_ p hp
        intro q hq
        rcases List.mem_append.mp hq with hq | hq
        · exact hacc q hq
        · have : q = (top, i) := by simpa using hq
          subst this
          exact ⟨hstack top (List.mem_cons_self _ _), hev0.2 rfl⟩
    · rw [stackPairsGo] at hp
      refine ih (i :: stack) acc hevr ?_ hacc p hp
      intro s hs
      rcases List.mem_cons.mp hs with rfl | hs
      · exact hev0.1 rfl
      · exact hstack s hs

theorem searchRegexNonWs_none : ∀ (l : List Char) (i : Nat),
    searchRegexNonWs l i = none → ∀ c ∈ l, isJsSpace c = true := by
  intro l
  induction l with
  | nil => intro i _ c hc; simp at hc
  | cons ch rest ih =>
    intro i h c hc
    rw [searchRegexNonWs] at h
    by_cases hsp : isJsSpace ch = true
    · rw [if_pos (by simp [hsp])] at h
      rcases List.mem_cons.mp hc with rfl | hc
      · exact hsp
      · exact ih (i + 1) h c hc
    · rw [if_neg (by simp [hsp])] at h
      simp at h

theorem searchRegexNonWs_some : ∀ (l : List Char) (i f : Nat),
    searchRegexNonWs l i = some f →
    i ≤ f ∧ f - i < l.length ∧
      (∃ ch, l[f - i]? = some ch ∧ isJsSpace ch = false) ∧
      ∀ j < f - i, ∃ ch, l[j]? = some ch ∧ isJsSpace ch = true := by
  intro l
  induction l with
  | nil => intro i f h; simp [searchRegexNonWs] at h
  | cons ch rest ih =>
    intro i f h
    rw [searchRegexNonWs] at h
    by_cases hsp : isJsSpace ch = true
    · rw [if_pos (by simp [hsp])] at h
      obtain ⟨h1, h2, ⟨c0, hc0, hc0s⟩, h4⟩ := ih (i + 1) f h
      have hfi : 1 ≤ f - i := by omega
      refine ⟨by omega, by simp; omega, ⟨c0, ?_, hc0s⟩, ?_⟩
      · rw [show f - i = (f - (i + 1)) + 1 by omega]
        simpa using hc0
      · intro j hj
        cases j with
        | zero => exact ⟨ch, by simp, hsp⟩
        | succ j' =>
          have := h4 j' (by omega)
          obtain ⟨c1, hc1, hc1s⟩ := this
          exact ⟨c1, by simpa using hc1, hc1s⟩
    · rw [if_neg (by simp [hsp])] at h
      rw [Option.some_inj] at h
      subst h
      refine ⟨le_refl _, by simp, ⟨ch, by simp, by simpa using hsp⟩, ?_⟩
      intro j hj
      omega

theorem jsSubstring_eq_extract {s : List Char} {a b : Nat} (hab : a ≤ b) (hb : b ≤ s.length) :
    jsSubstring s a b = (s.drop a).take (b - a) := by
  unfold jsSubstring
  have ha' : min a s.length = a := min_eq_left (le_trans hab hb)
  have hb' : min b s.length = b := min_eq_left hb
  simp only [ha', hb']
  rw [min_eq_left hab, max_eq_right hab]

theorem jsSubstring_drop {s : List Char} {a : Nat} (ha : a ≤ s.length) :
    jsSubstring s a s.length = s.drop a := by
  rw [jsSubstring_eq_extract ha (le_refl _)]
  apply List.take_of_length_le
  rw [List.length_drop]

theorem lineLensSum_out (state : EditorState) :
    ∀ n, state.lines.length ≤ n →
    lineLensSum state n = lineLensSum state state.lines.length + (n - state.lines.length) := by
  intro n
  induction n with
  | zero =>
    intro h
    have hz : state.lines.length = 0 := by omega
    rw [hz]
    rfl
  | succ k ih =>
    intro h
    rcases Nat.lt_or_ge k state.lines.length with hlt | hge
    · have : state.lines.length = k + 1 := by omega
      rw [this]
      simp
    · have hline : getLineText state k = [] := by
        unfold getLineText
        rw [List.getD_eq_getElem?_getD, List.getElem?_eq_none (by omega)]
        rfl
      have hstep : lineLensSum state (k + 1) =
          lineLensSum state k + ((getLineText state k).length + 1) := rfl
      rw [hstep, ih hge, hline]
      simp
      omega

/-- C6: for every detected range and every destination pair, `getTextEdits`
with the replace operation and no source pair fails with the explicit
"source pair is required" error and never returns an edit list. -/
theorem C6_replace_requires_source (ranges : SelectionRangeWithPairResult) (pair : PairType) :
    getTextEdits OperationType.replace ranges pair none =
      Except.error "Source pair is required for replace operation" ∧
    ∀ edits : TextEditResult, getTextEdits OperationType.replace ranges pair none ≠ Except.ok edits := by
  refine ⟨rfl, ?_⟩
  intro edits h
  simp [getTextEdits] at h

/-- C9: the `offsetToPosition` line walk is total and bounded: the
instrumented walk executes at most `MAX_LINES` iterations and agrees with
`offsetToPosition`, and whenever the offset lies at or beyond the text
covered by the iteration ceiling the function signals the internal error by
returning position (0, 0) instead of walking further. -/
theorem C9_offsetToPosition_bounded (state : EditorState) (offset : Nat) :
    (offsetToPositionIter state offset).2 ≤ MAX_LINES ∧
    (offsetToPositionIter state offset).1 = offsetToPosition state offset ∧
    (lineLensSum state MAX_LINES ≤ offset → offsetToPosition state offset = ⟨0, 0⟩) :=
  ⟨offsetToPositionIterGo_count state offset MAX_LINES 0 0,
   offsetToPositionIterGo_fst state offset MAX_LINES 0 0,
   fun h => offsetToPosition_overflow state h⟩

/-- Witness for C9: on a concrete one-line buffer, an offset far beyond the
ceiling returns the error value (0, 0), and the iteration bound holds. -/
theorem C9_offsetToPosition_bounded_witness :
    offsetToPosition ⟨[['a', 'b']], ⟨0, 0⟩, ⟨⟨0, 0⟩, ⟨0, 0⟩⟩⟩ 1000000 = ⟨0, 0⟩ ∧
    (offsetToPositionIter ⟨[['a', 'b']], ⟨0, 0⟩, ⟨⟨0, 0⟩, ⟨0, 0⟩⟩⟩ 1000000).2 ≤ MAX_LINES := by
  constructor
  · apply (C9_offsetToPosition_bounded ⟨[['a', 'b']], ⟨0, 0⟩, ⟨⟨0, 0⟩, ⟨0, 0⟩⟩⟩ 1000000).2.2
    rw [lineLensSum_out _ MAX_LINES (by decide)]
    decide
  · exact (C9_offsetToPosition_bounded ⟨[['a', 'b']], ⟨0, 0⟩, ⟨⟨0, 0⟩, ⟨0, 0⟩⟩⟩ 1000000).1

theorem getD_replicate_nil (m j : Nat) :
    (List.replicate m ([] : List Char)).getD j [] = [] := by
  rw [List.getD_eq_getElem?_getD, List.getElem?_replicate]
  by_cases h : j < m
  · rw [if_pos h]; rfl
  · rw [if_neg h]; rfl

theorem lineLensSum_replicate_nil (cur : Position) (sel : Range) (m : Nat) :
    ∀ n, lineLensSum ⟨List.replicate m [], cur, sel⟩ n = n := by
  intro n
  induction n with
  | zero => rfl
  | succ k ih =>
    have hstep : lineLensSum ⟨List.replicate m [], cur, sel⟩ (k + 1) =
        lineLensSum ⟨List.replicate m [], cur, sel⟩ k +
          ((getLineText ⟨List.replicate m [], cur, sel⟩ k).length + 1) := rfl
    have hline : getLineText ⟨List.replicate m [], cur, sel⟩ k = [] := getD_replicate_nil m k
    rw [hstep, ih, hline]
    rfl

theorem positionToOffset_mk (state : EditorState) (l ch : Nat) :
    positionToOffset state ⟨l, ch⟩ = lineLensSum state l + ch := rfl

/-- C1 counterexample: in a buffer of 100001 empty lines the position
(100000, 0) is valid (its line exists and its character is within the line),
yet `positionToOffset` maps it to offset 100000 and `offsetToPosition` hits
the iteration ceiling there and returns (0, 0), so the round trip fails. -/
theorem C1_counterexample :
    100000 < (⟨List.replicate 100001 [], ⟨0, 0⟩, ⟨⟨0, 0⟩, ⟨0, 0⟩⟩⟩ : EditorState).lines.length ∧
    (0 : Nat) ≤ (getLineText ⟨List.replicate 100001 [], ⟨0, 0⟩, ⟨⟨0, 0⟩, ⟨0, 0⟩⟩⟩ 100000).length ∧
    positionToOffset ⟨List.replicate 100001 [], ⟨0, 0⟩, ⟨⟨0, 0⟩, ⟨0, 0⟩⟩⟩ ⟨100000, 0⟩ = 100000 ∧
    offsetToPosition ⟨List.replicate 100001 [], ⟨0, 0⟩, ⟨⟨0, 0⟩, ⟨0, 0⟩⟩⟩
      (positionToOffset ⟨List.replicate 100001 [], ⟨0, 0⟩, ⟨⟨0, 0⟩, ⟨0, 0⟩⟩⟩ ⟨100000, 0⟩) = ⟨0, 0⟩ ∧
    (⟨0, 0⟩ : Position) ≠ ⟨100000, 0⟩ := by
  have hlen : (⟨List.replicate 100001 [], ⟨0, 0⟩, ⟨⟨0, 0⟩, ⟨0, 0⟩⟩⟩ : EditorState).lines.length = 100001 :=
    List.length_replicate _ _
  have hoff : positionToOffset ⟨List.replicate 100001 [], ⟨0, 0⟩, ⟨⟨0, 0⟩, ⟨0, 0⟩⟩⟩ ⟨100000, 0⟩ = 100000 := by
    rw [positionToOffset_mk, lineLensSum_replicate_nil]
  refine ⟨by rw [hlen]; decide, Nat.zero_le _, hoff, ?_, by simp⟩
  rw [hoff]
  apply offsetToPosition_overflow
  rw [lineLensSum_replicate_nil]
  decide

/-- C1 (amended): for every valid position p (its line exists in the buffer
and its character is at most that line's length) whose line is additionally
below the MAX_LINES iteration ceiling of `offsetToPosition`, the round trip
`offsetToPosition (positionToOffset p) = p` holds. -/
theorem C1_roundtrip (state : EditorState) (p : Position)
    (_hline : p.line < state.lines.length)
    (hchar : p.character ≤ (getLineText state p.line).length)
    (hceil : p.line < MAX_LINES) :
    offsetToPosition state (positionToOffset state p) = p := by
  have h1 : lineLensSum state p.line ≤ positionToOffset state p := Nat.le_add_right _ _
  have h2 : positionToOffset state p < lineLensSum state (p.line + 1) := by
    have hstep : lineLensSum state (p.line + 1) =
        lineLensSum state p.line + ((getLineText state p.line).length + 1) := rfl
    unfold positionToOffset
    omega
  rw [offsetToPosition_eq state hceil h1 h2]
  unfold positionToOffset
  cases p with
  | mk l ch => simp

/-- Witness for C1: the round trip at the concrete valid position (1, 1) of a
two-line buffer. -/
theorem C1_roundtrip_witness :
    offsetToPosition ⟨[['a', 'b'], ['c', 'd']], ⟨0, 0⟩, ⟨⟨0, 0⟩, ⟨0, 0⟩⟩⟩
      (positionToOffset ⟨[['a', 'b'], ['c', 'd']], ⟨0, 0⟩, ⟨⟨0, 0⟩, ⟨0, 0⟩⟩⟩ ⟨1, 1⟩) = ⟨1, 1⟩ :=
  C1_roundtrip _ ⟨1, 1⟩ (by decide) (by decide) (by decide)

/-- C7: for every editor state, EntireLine selection returns a non-null
result on the cursor's line whose range starts at the first non-whitespace
column (column 0 when the line is empty or all whitespace), ends at the line
length, and whose text is the line's content from that start column. -/
theorem C7_entireLine (state : EditorState) :
    selectRange RangeType.entireLine state = some
      { range := ⟨⟨state.cursorPosition.line,
                    (searchNonWhitespace (getLineText state state.cursorPosition.line)).getD 0⟩,
                  ⟨state.cursorPosition.line,
                    (getLineText state state.cursorPosition.line).length⟩⟩
        startRange := ⟨⟨state.cursorPosition.line,
                    (searchNonWhitespace (getLineText state state.cursorPosition.line)).getD 0⟩,
                  ⟨state.cursorPosition.line,
                    (searchNonWhitespace (getLineText state state.cursorPosition.line)).getD 0⟩⟩
        endRange := ⟨⟨state.cursorPosition.line,
                    (getLineText state state.cursorPosition.line).length⟩,
                  ⟨state.cursorPosition.line,
                    (getLineText state state.cursorPosition.line).length⟩⟩
        text := some ((getLineText state state.cursorPosition.line).drop
                    ((searchNonWhitespace (getLineText state state.cursorPosition.line)).getD 0)) } ∧
    ((∀ ch ∈ getLineText state state.cursorPosition.line, isJsSpace ch = true) ∧
        (searchNonWhitespace (getLineText state state.cursorPosition.line)).getD 0 = 0 ∨
      (∃ ch, (getLineText state state.cursorPosition.line)[
          (searchNonWhitespace (getLineText state state.cursorPosition.line)).getD 0]? = some ch ∧
          isJsSpace ch = false) ∧
        ∀ j < (searchNonWhitespace (getLineText state state.cursorPosition.line)).getD 0,
          ∃ ch, (getLineText state state.cursorPosition.line)[j]? = some ch ∧ isJsSpace ch = true) := by
  constructor
  · show some (selectEntireLine state) = _
    have heff : (searchNonWhitespace (getLineText state state.cursorPosition.line)).getD 0 ≤
        (getLineText state state.cursorPosition.line).length := by
      cases hs : searchNonWhitespace (getLineText state state.cursorPosition.line) with
      | none => exact Nat.zero_le _
      | some f =>
        obtain ⟨_, hflen, _, _⟩ := searchRegexNonWs_some _ 0 f hs
        simp at hflen ⊢
        omega
    simp only [selectEntireLine]
    rw [jsSubstring_drop heff]
  · cases hs : searchNonWhitespace (getLineText state state.cursorPosition.line) with
    | none =>
      left
      exact ⟨searchRegexNonWs_none _ 0 hs, rfl⟩
    | some f =>
      right
      obtain ⟨_, hflen, hch, hprev⟩ := searchRegexNonWs_some _ 0 f hs
      simp only [Nat.sub_zero] at hflen hch hprev
      exact ⟨hch, hprev⟩

/-- Witness for C7: the spec's whitespace-skip example line. -/
theorem C7_entireLine_witness :
    selectRange RangeType.entireLine
      ⟨["    line2 with cursor".toList], ⟨0, 9⟩, ⟨⟨0, 9⟩, ⟨0, 9⟩⟩⟩ =
      some { range := ⟨⟨0, 4⟩, ⟨0, 21⟩⟩
             startRange := ⟨⟨0, 4⟩, ⟨0, 4⟩⟩
             endRange := ⟨⟨0, 21⟩, ⟨0, 21⟩⟩
             text := some "line2 with cursor".toList } :=
  (C7_entireLine ⟨["    line2 with cursor".toList], ⟨0, 9⟩, ⟨⟨0, 9⟩, ⟨0, 9⟩⟩⟩).1.trans (by decide)

theorem findSurroundingPair_basic (state : EditorState) (b : BasicPairType) :
    findSurroundingPair state (.basic b) =
      findSurroundingBasicPair state (documentText state)
        (positionToOffset state state.cursorPosition) (PAIR_DELIMITERS b) := rfl

theorem findSurroundingPair_tag_eq (state : EditorState) (name : List Char) :
    findSurroundingPair state (.tag name) =
      findSurroundingTagPair state (documentText state)
        (positionToOffset state state.cursorPosition) (getPairDelimiter (.tag name)) := rfl

theorem findSurroundingBasicPair_bracket (state : EditorState) (text : List Char) (c : Nat)
    (d : List Char × List Char) (hne : d.1 ≠ d.2) :
    findSurroundingBasicPair state text c d =
      findSurroundingBracketPair state c (findBalancedPairs text d.1 d.2) d.1 d.2 := by
  simp only [findSurroundingBasicPair]
  rw [if_neg hne]

theorem findSurroundingBasicPair_quote (state : EditorState) (text : List Char) (c : Nat)
    (d : List Char × List Char) (he : d.1 = d.2) :
    findSurroundingBasicPair state text c d =
      findSurroundingQuotePair state c (findBalancedPairs text d.1 d.2) d.1 d.2 := by
  simp only [findSurroundingBasicPair]
  rw [if_pos he]

theorem findSurroundingBracketPair_eq_inner (state : EditorState) (c : Nat)
    (balancedPairs : List (Nat × Nat)) (opening closing : List Char)
    {h : Nat × Nat} {t : List (Nat × Nat)}
    (hfil : balancedPairs.filter (fun pair => decide (pair.1 < c ∧ c < pair.2)) = h :: t) :
    findSurroundingBracketPair state c balancedPairs opening closing =
      some (createSelectionResult state
        ⟨(List.foldl (fun smallest current =>
            if current.2 - current.1 < smallest.2 - smallest.1 then current else smallest) h (h :: t)).1,
         (List.foldl (fun smallest current =>
            if current.2 - current.1 < smallest.2 - smallest.1 then current else smallest) h (h :: t)).1 + opening.length,
         (List.foldl (fun smallest current =>
            if current.2 - current.1 < smallest.2 - smallest.1 then current else smallest) h (h :: t)).2,
         (List.foldl (fun smallest current =>
            if current.2 - current.1 < smallest.2 - smallest.1 then current else smallest) h (h :: t)).2 + closing.length⟩) := by
  simp only [findSurroundingBracketPair]
  rw [hfil]

theorem findSurroundingBracketPair_eq_fallback (state : EditorState) (c : Nat)
    (balancedPairs : List (Nat × Nat)) (opening closing : List Char)
    (hfil : balancedPairs.filter (fun pair => decide (pair.1 < c ∧ c < pair.2)) = []) :
    findSurroundingBracketPair state c balancedPairs opening closing =
      match findSurroundingPairPosition c (findAllOccurrences (documentText state) opening)
            (findAllOccurrences (documentText state) closing) opening.length closing.length with
      | none => none
      | some pairPosition => some (createSelectionResult state pairPosition) := by
  simp only [findSurroundingBracketPair]
  rw [hfil]

theorem bracket_delims_ne {b : BasicPairType} (hb : b ∈ bracketTypes) :
    (PAIR_DELIMITERS b).1 ≠ (PAIR_DELIMITERS b).2 := by
  simp [bracketTypes] at hb
  rcases hb with rfl | rfl | rfl | rfl <;> decide

theorem bracket_delims_len {b : BasicPairType} (hb : b ∈ bracketTypes) :
    (PAIR_DELIMITERS b).1.length = 1 ∧ (PAIR_DELIMITERS b).2.length = 1 := by
  simp [bracketTypes] at hb
  rcases hb with rfl | rfl | rfl | rfl <;> exact ⟨rfl, rfl⟩

/-- C2: for a bracket descriptor, whenever at least one stack-matched
balanced pair of that kind strictly contains the cursor offset,
`findSurroundingPair` returns the candidate with the smallest span among the
cursor-containing candidates, and its content range runs from the end of the
opening delimiter to the start of the closing delimiter. -/
theorem C2_bracket_innermost (state : EditorState) (b : BasicPairType)
    (hb : b ∈ bracketTypes) (p : Nat × Nat)
    (hp : p ∈ findBalancedPairs (documentText state) (PAIR_DELIMITERS b).1 (PAIR_DELIMITERS b).2)
    (hc1 : p.1 < positionToOffset state state.cursorPosition)
    (hc2 : positionToOffset state state.cursorPosition < p.2) :
    ∃ q, q ∈ findBalancedPairs (documentText state) (PAIR_DELIMITERS b).1 (PAIR_DELIMITERS b).2 ∧
      q.1 < positionToOffset state state.cursorPosition ∧
      positionToOffset state state.cursorPosition < q.2 ∧
      (∀ r ∈ findBalancedPairs (documentText state) (PAIR_DELIMITERS b).1 (PAIR_DELIMITERS b).2,
        r.1 < positionToOffset state state.cursorPosition →
        positionToOffset state state.cursorPosition < r.2 →
        q.2 - q.1 ≤ r.2 - r.1) ∧
      findSurroundingPair state (.basic b) =
        some (createSelectionResult state ⟨q.1, q.1 + 1, q.2, q.2 + 1⟩) ∧
      (createSelectionResult state ⟨q.1, q.1 + 1, q.2, q.2 + 1⟩).range.start =
        offsetToPosition state (q.1 + 1) ∧
      (createSelectionResult state ⟨q.1, q.1 + 1, q.2, q.2 + 1⟩).range.stop =
        offsetToPosition state q.2 := by
  have hne := bracket_delims_ne hb
  obtain ⟨hlen1, hlen2⟩ := bracket_delims_len hb
  have hpf : p ∈ (findBalancedPairs (documentText state) (PAIR_DELIMITERS b).1
      (PAIR_DELIMITERS b).2).filter
      (fun pair => decide (pair.1 < positionToOffset state state.cursorPosition ∧
        positionToOffset state state.cursorPosition < pair.2)) :=
    List.mem_filter.mpr ⟨hp, by simp [hc1, hc2]⟩
  cases hfil : (findBalancedPairs (documentText state) (PAIR_DELIMITERS b).1
      (PAIR_DELIMITERS b).2).filter
      (fun pair => decide (pair.1 < positionToOffset state state.cursorPosition ∧
        positionToOffset state state.cursorPosition < pair.2)) with
  | nil => rw [hfil] at hpf; simp at hpf
  | cons hd tl =>
    obtain ⟨hmem, _, hall⟩ := foldl_pick_spec (fun p : Nat × Nat => p.2 - p.1)
      (fun smallest current =>
        if current.2 - current.1 < smallest.2 - smallest.1 then current else smallest)
      minSpan_pick_spec (hd :: tl) hd
    set q := List.foldl (fun smallest current =>
        if current.2 - current.1 < smallest.2 - smallest.1 then current else smallest) hd (hd :: tl)
      with hq
    have hqfil : q ∈ (findBalancedPairs (documentText state) (PAIR_DELIMITERS b).1
        (PAIR_DELIMITERS b).2).filter
        (fun pair => decide (pair.1 < positionToOffset state state.cursorPosition ∧
          positionToOffset state state.cursorPosition < pair.2)) := by
      rw [hfil]
      rcases hmem with he | hm
      · rw [he]; exact List.mem_cons_self _ _
      · exact hm
    obtain ⟨hqbal, hqcond⟩ := List.mem_filter.mp hqfil
    simp only [decide_eq_true_eq] at hqcond
    refine ⟨q, hqbal, hqcond.1, hqcond.2, ?_, ?_, rfl, rfl⟩
    · intro r hr hr1 hr2
      have hrf : r ∈ (findBalancedPairs (documentText state) (PAIR_DELIMITERS b).1
          (PAIR_DELIMITERS b).2).filter
          (fun pair => decide (pair.1 < positionToOffset state state.cursorPosition ∧
            positionToOffset state state.cursorPosition < pair.2)) :=
        List.mem_filter.mpr ⟨hr, by simp [hr1, hr2]⟩
      rw [hfil] at hrf
      exact hall r hrf
    · rw [findSurroundingPair_basic,
        findSurroundingBasicPair_bracket state _ _ _ hne,
        findSurroundingBracketPair_eq_inner state _ _ _ _ hfil, ← hq, hlen1, hlen2]

/-- Witness for C2 at the concrete document "( outer ( inner ) )" with the
cursor inside the inner parentheses. -/
theorem C2_bracket_innermost_witness :
    ∃ q, q ∈ findBalancedPairs
        (documentText ⟨["( outer ( inner ) )".toList], ⟨0, 12⟩, ⟨⟨0, 12⟩, ⟨0, 12⟩⟩⟩)
        (PAIR_DELIMITERS .paren).1 (PAIR_DELIMITERS .paren).2 ∧
      q.1 < positionToOffset ⟨["( outer ( inner ) )".toList], ⟨0, 12⟩, ⟨⟨0, 12⟩, ⟨0, 12⟩⟩⟩
        (⟨["( outer ( inner ) )".toList], ⟨0, 12⟩, ⟨⟨0, 12⟩, ⟨0, 12⟩⟩⟩ : EditorState).cursorPosition ∧
      positionToOffset ⟨["( outer ( inner ) )".toList], ⟨0, 12⟩, ⟨⟨0, 12⟩, ⟨0, 12⟩⟩⟩
        (⟨["( outer ( inner ) )".toList], ⟨0, 12⟩, ⟨⟨0, 12⟩, ⟨0, 12⟩⟩⟩ : EditorState).cursorPosition < q.2 ∧
      (∀ r ∈ findBalancedPairs
          (documentText ⟨["( outer ( inner ) )".toList], ⟨0, 12⟩, ⟨⟨0, 12⟩, ⟨0, 12⟩⟩⟩)
          (PAIR_DELIMITERS .paren).1 (PAIR_DELIMITERS .paren).2,
        r.1 < positionToOffset ⟨["( outer ( inner ) )".toList], ⟨0, 12⟩, ⟨⟨0, 12⟩, ⟨0, 12⟩⟩⟩
          (⟨["( outer ( inner ) )".toList], ⟨0, 12⟩, ⟨⟨0, 12⟩, ⟨0, 12⟩⟩⟩ : EditorState).cursorPosition →
        positionToOffset ⟨["( outer ( inner ) )".toList], ⟨0, 12⟩, ⟨⟨0, 12⟩, ⟨0, 12⟩⟩⟩
          (⟨["( outer ( inner ) )".toList], ⟨0, 12⟩, ⟨⟨0, 12⟩, ⟨0, 12⟩⟩⟩ : EditorState).cursorPosition < r.2 →
        q.2 - q.1 ≤ r.2 - r.1) ∧
      findSurroundingPair ⟨["( outer ( inner ) )".toList], ⟨0, 12⟩, ⟨⟨0, 12⟩, ⟨0, 12⟩⟩⟩ (.basic .paren) =
        some (createSelectionResult ⟨["( outer ( inner ) )".toList], ⟨0, 12⟩, ⟨⟨0, 12⟩, ⟨0, 12⟩⟩⟩
          ⟨q.1, q.1 + 1, q.2, q.2 + 1⟩) ∧
      (createSelectionResult ⟨["( outer ( inner ) )".toList], ⟨0, 12⟩, ⟨⟨0, 12⟩, ⟨0, 12⟩⟩⟩
          ⟨q.1, q.1 + 1, q.2, q.2 + 1⟩).range.start =
        offsetToPosition ⟨["( outer ( inner ) )".toList], ⟨0, 12⟩, ⟨⟨0, 12⟩, ⟨0, 12⟩⟩⟩ (q.1 + 1) ∧
      (createSelectionResult ⟨["( outer ( inner ) )".toList], ⟨0, 12⟩, ⟨⟨0, 12⟩, ⟨0, 12⟩⟩⟩
          ⟨q.1, q.1 + 1, q.2, q.2 + 1⟩).range.stop =
        offsetToPosition ⟨["( outer ( inner ) )".toList], ⟨0, 12⟩, ⟨⟨0, 12⟩, ⟨0, 12⟩⟩⟩ q.2 :=
  C2_bracket_innermost _ .paren (by decide) (8, 16) (by decide) (by decide) (by decide)

/-- C10: for a bracket descriptor, when no stack-matched balanced pair
strictly contains the cursor, `findSurroundingPair` falls back to pairing
the first opening occurrence located before the cursor with the first
closing occurrence located after the cursor whenever both exist, and it
returns null exactly when no such opening/closing combination straddles the
cursor. -/
theorem C10_bracket_fallback (state : EditorState) (b : BasicPairType)
    (hb : b ∈ bracketTypes)
    (hnone : (findBalancedPairs (documentText state) (PAIR_DELIMITERS b).1
        (PAIR_DELIMITERS b).2).filter
      (fun pair => decide (pair.1 < positionToOffset state state.cursorPosition ∧
        positionToOffset state state.cursorPosition < pair.2)) = []) :
    (((∃ o ∈ findAllOccurrences (documentText state) (PAIR_DELIMITERS b).1,
        o < positionToOffset state state.cursorPosition) ∧
      (∃ k ∈ findAllOccurrences (documentText state) (PAIR_DELIMITERS b).2,
        positionToOffset state state.cursorPosition < k)) →
      ∃ o0 k0,
        o0 ∈ findAllOccurrences (documentText state) (PAIR_DELIMITERS b).1 ∧
        o0 < positionToOffset state state.cursorPosition ∧
        (∀ o ∈ findAllOccurrences (documentText state) (PAIR_DELIMITERS b).1, o0 ≤ o) ∧
        k0 ∈ findAllOccurrences (documentText state) (PAIR_DELIMITERS b).2 ∧
        positionToOffset state state.cursorPosition < k0 ∧
        (∀ k ∈ findAllOccurrences (documentText state) (PAIR_DELIMITERS b).2,
          positionToOffset state state.cursorPosition < k → k0 ≤ k) ∧
        findSurroundingPair state (.basic b) =
          some (createSelectionResult state ⟨o0, o0 + 1, k0, k0 + 1⟩)) ∧
    (¬ ((∃ o ∈ findAllOccurrences (documentText state) (PAIR_DELIMITERS b).1,
        o < positionToOffset state state.cursorPosition) ∧
      (∃ k ∈ findAllOccurrences (documentText state) (PAIR_DELIMITERS b).2,
        positionToOffset state state.cursorPosition < k)) →
      findSurroundingPair state (.basic b) = none) := by
  have hne := bracket_delims_ne hb
  obtain ⟨hlen1, hlen2⟩ := bracket_delims_len hb
  have heq : findSurroundingPair state (.basic b) =
      match findSurroundingPairPosition (positionToOffset state state.cursorPosition)
          (findAllOccurrences (documentText state) (PAIR_DELIMITERS b).1)
          (findAllOccurrences (documentText state) (PAIR_DELIMITERS b).2)
          (PAIR_DELIMITERS b).1.length (PAIR_DELIMITERS b).2.length with
      | none => none
      | some pairPosition => some (createSelectionResult state pairPosition) := by
    rw [findSurroundingPair_basic, findSurroundingBasicPair_bracket state _ _ _ hne,
      findSurroundingBracketPair_eq_fallback state _ _ _ _ hnone]
  have hchar : findSurroundingPairPosition (positionToOffset state state.cursorPosition)
      (findAllOccurrences (documentText state) (PAIR_DELIMITERS b).1)
      (findAllOccurrences (documentText state) (PAIR_DELIMITERS b).2)
      (PAIR_DELIMITERS b).1.length (PAIR_DELIMITERS b).2.length =
      match (findAllOccurrences (documentText state) (PAIR_DELIMITERS b).1).find?
          (fun o => decide (o < positionToOffset state state.cursorPosition)) with
      | none => none
      | some o0 =>
        match (findAllOccurrences (documentText state) (PAIR_DELIMITERS b).2).find?
            (fun k => decide (positionToOffset state state.cursorPosition < k)) with
        | none => none
        | some k0 => some ⟨o0, o0 + (PAIR_DELIMITERS b).1.length, k0, k0 + (PAIR_DELIMITERS b).2.length⟩ :=
    fsppGo_eq _ _ _ _ _
  constructor
  · rintro ⟨⟨o, ho, holt⟩, ⟨k, hk, hklt⟩⟩
    cases hfo : (findAllOccurrences (documentText state) (PAIR_DELIMITERS b).1).find?
        (fun o => decide (o < positionToOffset state state.cursorPosition)) with
    | none =>
      exfalso
      have := List.find?_eq_none.mp hfo o ho
      simp [holt] at this
    | some o0 =>
      cases hfk : (findAllOccurrences (documentText state) (PAIR_DELIMITERS b).2).find?
          (fun k => decide (positionToOffset state state.cursorPosition < k)) with
      | none =>
        exfalso
        have := List.find?_eq_none.mp hfk k hk
        simp [hklt] at this
      | some k0 =>
        obtain ⟨ho1, ho2, ho3⟩ := find?_lt_min (findAllOccurrences_sorted) hfo
        obtain ⟨hk1, hk2, hk3⟩ := find?_gt_first (findAllOccurrences_sorted) hfk
        refine ⟨o0, k0, ho1, ho2, ho3, hk1, hk2, hk3, ?_⟩
        rw [heq, hchar, hfo, hfk, hlen1, hlen2]
  · intro hno
    rw [heq, hchar]
    rcases Decidable.not_and_iff_or_not.mp hno with hno1 | hno2
    · have hfo : (findAllOccurrences (documentText state) (PAIR_DELIMITERS b).1).find?
          (fun o => decide (o < positionToOffset state state.cursorPosition)) = none := by
        rw [List.find?_eq_none]
        intro x hx
        simp only [decide_eq_true_eq]
        intro hlt
        exact hno1 ⟨x, hx, hlt⟩
      rw [hfo]
    · have hfk : (findAllOccurrences (documentText state) (PAIR_DELIMITERS b).2).find?
          (fun k => decide (positionToOffset state state.cursorPosition < k)) = none := by
        rw [List.find?_eq_none]
        intro x hx
        simp only [decide_eq_true_eq]
        intro hlt
        exact hno2 ⟨x, hx, hlt⟩
      rw [hfk]
      cases (findAllOccurrences (documentText state) (PAIR_DELIMITERS b).1).find?
          (fun o => decide (o < positionToOffset state state.cursorPosition)) with
      | none => rfl
      | some o0 => rfl

/-- Witness for C10 at the concrete document "( a ) ( b )" with the cursor
between the two pairs: the result pairs the first "(" with the second ")". -/
theorem C10_bracket_fallback_witness :
    ∃ o0 k0,
      o0 ∈ findAllOccurrences (documentText ⟨["( a ) ( b )".toList], ⟨0, 5⟩, ⟨⟨0, 5⟩, ⟨0, 5⟩⟩⟩)
        (PAIR_DELIMITERS .paren).1 ∧
      o0 < positionToOffset ⟨["( a ) ( b )".toList], ⟨0, 5⟩, ⟨⟨0, 5⟩, ⟨0, 5⟩⟩⟩
        (⟨["( a ) ( b )".toList], ⟨0, 5⟩, ⟨⟨0, 5⟩, ⟨0, 5⟩⟩⟩ : EditorState).cursorPosition ∧
      (∀ o ∈ findAllOccurrences (documentText ⟨["( a ) ( b )".toList], ⟨0, 5⟩, ⟨⟨0, 5⟩, ⟨0, 5⟩⟩⟩)
        (PAIR_DELIMITERS .paren).1, o0 ≤ o) ∧
      k0 ∈ findAllOccurrences (documentText ⟨["( a ) ( b )".toList], ⟨0, 5⟩, ⟨⟨0, 5⟩, ⟨0, 5⟩⟩⟩)
        (PAIR_DELIMITERS .paren).2 ∧
      positionToOffset ⟨["( a ) ( b )".toList], ⟨0, 5⟩, ⟨⟨0, 5⟩, ⟨0, 5⟩⟩⟩
        (⟨["( a ) ( b )".toList], ⟨0, 5⟩, ⟨⟨0, 5⟩, ⟨0, 5⟩⟩⟩ : EditorState).cursorPosition < k0 ∧
      (∀ k ∈ findAllOccurrences (documentText ⟨["( a ) ( b )".toList], ⟨0, 5⟩, ⟨⟨0, 5⟩, ⟨0, 5⟩⟩⟩)
        (PAIR_DELIMITERS .paren).2,
        positionToOffset ⟨["( a ) ( b )".toList], ⟨0, 5⟩, ⟨⟨0, 5⟩, ⟨0, 5⟩⟩⟩
          (⟨["( a ) ( b )".toList], ⟨0, 5⟩, ⟨⟨0, 5⟩, ⟨0, 5⟩⟩⟩ : EditorState).cursorPosition < k → k0 ≤ k) ∧
      findSurroundingPair ⟨["( a ) ( b )".toList], ⟨0, 5⟩, ⟨⟨0, 5⟩, ⟨0, 5⟩⟩⟩ (.basic .paren) =
        some (createSelectionResult ⟨["( a ) ( b )".toList], ⟨0, 5⟩, ⟨⟨0, 5⟩, ⟨0, 5⟩⟩⟩
          ⟨o0, o0 + 1, k0, k0 + 1⟩) :=
  (C10_bracket_fallback ⟨["( a ) ( b )".toList], ⟨0, 5⟩, ⟨⟨0, 5⟩, ⟨0, 5⟩⟩⟩ .paren
    (by decide) (by decide)).1 (by decide)

theorem pairwise_ne_or {α : Type} {R : α → α → Prop} :
    ∀ {l : List α}, List.Pairwise R l → ∀ a ∈ l, ∀ b ∈ l, a ≠ b → R a b ∨ R b a := by
  intro l
  induction l with
  | nil => intro _ a ha; simp at ha
  | cons x rest ih =>
    intro hp a ha b hb hne
    rw [List.pairwise_cons] at hp
    obtain ⟨hx, hp'⟩ := hp
    rcases List.mem_cons.mp ha with hax | ha'
    · rcases List.mem_cons.mp hb with hbx | hb'
      · exact absurd (hax.trans hbx.symm) hne
      · exact Or.inl (hax ▸ hx b hb')
    · rcases List.mem_cons.mp hb with hbx | hb'
      · exact Or.inr (hbx ▸ hx a ha')
      · exact ih hp' a ha' b hb' hne

theorem quote_delims_eq {q : BasicPairType} (hq : q ∈ quoteTypes) :
    (PAIR_DELIMITERS q).1 = (PAIR_DELIMITERS q).2 := by
  simp [quoteTypes] at hq
  rcases hq with rfl | rfl | rfl <;> rfl

theorem quote_delims_len {q : BasicPairType} (hq : q ∈ quoteTypes) :
    (PAIR_DELIMITERS q).1.length = 1 ∧ (PAIR_DELIMITERS q).2.length = 1 := by
  simp [quoteTypes] at hq
  rcases hq with rfl | rfl | rfl <;> exact ⟨rfl, rfl⟩

theorem findBalancedPairs_quote {text opening closing : List Char} (he : opening = closing) :
    findBalancedPairs text opening closing =
      pairConsecutive (findAllOccurrences text opening) := by
  simp only [findBalancedPairs]
  rw [if_pos he]

theorem findSurroundingQuotePair_eq (state : EditorState) (c : Nat)
    (balancedPairs : List (Nat × Nat)) (opening closing : List Char) :
    findSurroundingQuotePair state c balancedPairs opening closing =
      match findSurroundingQuotePairGo c closing.length balancedPairs none MAX_SAFE_INTEGER with
      | none => none
      | some bestPair =>
        some (createSelectionResult state
          ⟨bestPair.1, bestPair.1 + opening.length, bestPair.2, bestPair.2 + closing.length⟩) := rfl

/-- C3 counterexample: document of a single quote pair (offsets 0 and 1)
with the cursor offset at 2^53, one past `Number.MAX_SAFE_INTEGER`.  The
pair's closing delimiter lies at-or-before the cursor and no candidate
contains the cursor, so the claim requires the nearest preceding pair to be
returned, but the sentinel-initialized distance comparison rejects it and
`findSurroundingPair` returns null. -/
theorem C3_counterexample :
    findBalancedPairs
      (documentText ⟨[[squoteChar, squoteChar]], ⟨0, 9007199254740992⟩,
        ⟨⟨0, 9007199254740992⟩, ⟨0, 9007199254740992⟩⟩⟩)
      (PAIR_DELIMITERS .squote).1 (PAIR_DELIMITERS .squote).2 = [(0, 1)] ∧
    (1 : Nat) ≤ positionToOffset ⟨[[squoteChar, squoteChar]], ⟨0, 9007199254740992⟩,
        ⟨⟨0, 9007199254740992⟩, ⟨0, 9007199254740992⟩⟩⟩
      (⟨[[squoteChar, squoteChar]], ⟨0, 9007199254740992⟩,
        ⟨⟨0, 9007199254740992⟩, ⟨0, 9007199254740992⟩⟩⟩ : EditorState).cursorPosition ∧
    ¬ ((0 : Nat) < positionToOffset ⟨[[squoteChar, squoteChar]], ⟨0, 9007199254740992⟩,
        ⟨⟨0, 9007199254740992⟩, ⟨0, 9007199254740992⟩⟩⟩
      (⟨[[squoteChar, squoteChar]], ⟨0, 9007199254740992⟩,
        ⟨⟨0, 9007199254740992⟩, ⟨0, 9007199254740992⟩⟩⟩ : EditorState).cursorPosition ∧
       positionToOffset ⟨[[squoteChar, squoteChar]], ⟨0, 9007199254740992⟩,
        ⟨⟨0, 9007199254740992⟩, ⟨0, 9007199254740992⟩⟩⟩
      (⟨[[squoteChar, squoteChar]], ⟨0, 9007199254740992⟩,
        ⟨⟨0, 9007199254740992⟩, ⟨0, 9007199254740992⟩⟩⟩ : EditorState).cursorPosition ≤ 1 + 1) ∧
    findSurroundingPair ⟨[[squoteChar, squoteChar]], ⟨0, 9007199254740992⟩,
        ⟨⟨0, 9007199254740992⟩, ⟨0, 9007199254740992⟩⟩⟩ (.basic .squote) = none := by
  decide

/-- C3 (amended): for a quote descriptor the candidate pairs are the
document's occurrences of the quote character paired in strict alternation;
`findSurroundingPair` returns the candidate that textually contains the
cursor (opening index < cursor ≤ end of closing delimiter) when one exists;
otherwise, provided the cursor offset is at most `Number.MAX_SAFE_INTEGER`,
it returns the candidate whose closing delimiter is nearest at-or-before the
cursor; and it returns null when no candidate contains the cursor and none
ends at-or-before it. -/
theorem C3_quote_selection (state : EditorState) (q : BasicPairType) (hq : q ∈ quoteTypes) :
    (findBalancedPairs (documentText state) (PAIR_DELIMITERS q).1 (PAIR_DELIMITERS q).2 =
      pairConsecutive (findAllOccurrences (documentText state) (PAIR_DELIMITERS q).1)) ∧
    (∀ p ∈ pairConsecutive (findAllOccurrences (documentText state) (PAIR_DELIMITERS q).1),
      p.1 < positionToOffset state state.cursorPosition →
      positionToOffset state state.cursorPosition ≤ p.2 + 1 →
      findSurroundingPair state (.basic q) =
        some (createSelectionResult state ⟨p.1, p.1 + 1, p.2, p.2 + 1⟩)) ∧
    ((∀ p ∈ pairConsecutive (findAllOccurrences (documentText state) (PAIR_DELIMITERS q).1),
        ¬(p.1 < positionToOffset state state.cursorPosition ∧
          positionToOffset state state.cursorPosition ≤ p.2 + 1)) →
      ∀ p0 ∈ pairConsecutive (findAllOccurrences (documentText state) (PAIR_DELIMITERS q).1),
        p0.2 ≤ positionToOffset state state.cursorPosition →
        (∀ p ∈ pairConsecutive (findAllOccurrences (documentText state) (PAIR_DELIMITERS q).1),
          p.2 ≤ positionToOffset state state.cursorPosition → p.2 ≤ p0.2) →
        positionToOffset state state.cursorPosition ≤ MAX_SAFE_INTEGER →
        findSurroundingPair state (.basic q) =
          some (createSelectionResult state ⟨p0.1, p0.1 + 1, p0.2, p0.2 + 1⟩)) ∧
    ((∀ p ∈ pairConsecutive (findAllOccurrences (documentText state) (PAIR_DELIMITERS q).1),
        ¬(p.1 < positionToOffset state state.cursorPosition ∧
          positionToOffset state state.cursorPosition ≤ p.2 + 1) ∧
        ¬(p.2 ≤ positionToOffset state state.cursorPosition)) →
      findSurroundingPair state (.basic q) = none) := by
  have he := quote_delims_eq hq
  obtain ⟨hlen1, hlen2⟩ := quote_delims_len hq
  obtain ⟨hstruct1, hstruct2, hstruct3⟩ :=
    pairConsecutive_struct (findAllOccurrences (documentText state) (PAIR_DELIMITERS q).1)
      (findAllOccurrences_sorted)
  have hbal : findBalancedPairs (documentText state) (PAIR_DELIMITERS q).1 (PAIR_DELIMITERS q).2 =
      pairConsecutive (findAllOccurrences (documentText state) (PAIR_DELIMITERS q).1) :=
    findBalancedPairs_quote he
  have heq : findSurroundingPair state (.basic q) =
      match findSurroundingQuotePairGo (positionToOffset state state.cursorPosition)
          (PAIR_DELIMITERS q).2.length
          (pairConsecutive (findAllOccurrences (documentText state) (PAIR_DELIMITERS q).1))
          none MAX_SAFE_INTEGER with
      | none => none
      | some bestPair =>
        some (createSelectionResult state
          ⟨bestPair.1, bestPair.1 + (PAIR_DELIMITERS q).1.length,
           bestPair.2, bestPair.2 + (PAIR_DELIMITERS q).2.length⟩) := by
    rw [findSurroundingPair_basic, findSurroundingBasicPair_quote state _ _ _ he, hbal,
      findSurroundingQuotePair_eq]
  -- converting the code's break condition to the claim's containment
  have hcond_iff : ∀ p ∈ pairConsecutive (findAllOccurrences (documentText state)
      (PAIR_DELIMITERS q).1),
      (((p.1 < positionToOffset state state.cursorPosition ∧
          positionToOffset state state.cursorPosition ≤ p.2) ∨
        positionToOffset state state.cursorPosition = p.2 + (PAIR_DELIMITERS q).2.length) ↔
       (p.1 < positionToOffset state state.cursorPosition ∧
          positionToOffset state state.cursorPosition ≤ p.2 + 1)) := by
    intro p hp
    have hlt := hstruct1 p hp
    rw [hlen2]
    constructor
    · rintro (⟨h1, h2⟩ | h3)
      · exact ⟨h1, by omega⟩
      · exact ⟨by omega, by omega⟩
    · rintro ⟨h1, h2⟩
      rcases Nat.lt_or_ge p.2 (positionToOffset state state.cursorPosition) with hgt | hle
      · exact Or.inr (by omega)
      · exact Or.inl ⟨h1, hle⟩
  refine ⟨hbal, ?_, ?_, ?_⟩
  · -- containment branch
    intro p hp hp1 hp2
    have hgo : findSurroundingQuotePairGo (positionToOffset state state.cursorPosition)
        (PAIR_DELIMITERS q).2.length
        (pairConsecutive (findAllOccurrences (documentText state) (PAIR_DELIMITERS q).1))
        none MAX_SAFE_INTEGER = some p := by
      apply quoteGo_break
      · exact hp
      · exact (hcond_iff p hp).mpr ⟨hp1, hp2⟩
      · intro r hr hrne hrcond
        have hrclaim := (hcond_iff r hr).mp hrcond
        rcases pairwise_ne_or hstruct2 r hr p hp hrne with hrel | hrel
        · omega
        · omega
    rw [heq, hgo, hlen1, hlen2]
  · -- fallback branch
    intro hnc p0 hp0 hp0le hp0max hc
    have hgo : findSurroundingQuotePairGo (positionToOffset state state.cursorPosition)
        (PAIR_DELIMITERS q).2.length
        (pairConsecutive (findAllOccurrences (documentText state) (PAIR_DELIMITERS q).1))
        none MAX_SAFE_INTEGER = some p0 := by
      apply quoteGo_fallback
      · intro r hr hrcond
        exact hnc r hr ((hcond_iff r hr).mp hrcond)
      · exact hstruct3
      · exact hp0
      · exact hp0le
      · exact hp0max
      · intro r hr hrle
        have hlt := hstruct1 r hr
        have : (1 : Nat) ≤ MAX_SAFE_INTEGER := by decide
        omega
    rw [heq, hgo, hlen1, hlen2]
  · -- null branch
    intro hno
    have hgo : findSurroundingQuotePairGo (positionToOffset state state.cursorPosition)
        (PAIR_DELIMITERS q).2.length
        (pairConsecutive (findAllOccurrences (documentText state) (PAIR_DELIMITERS q).1))
        none MAX_SAFE_INTEGER = none := by
      apply quoteGo_skip
      intro r hr
      obtain ⟨h1, h2⟩ := hno r hr
      exact ⟨fun hc => h1 ((hcond_iff r hr).mp hc), h2⟩
    rw [heq, hgo]

/-- Witness for C3: a concrete quoted document with the cursor inside the
quotes selects that pair. -/
theorem C3_quote_selection_witness :
    findSurroundingPair ⟨[[squoteChar, 'a', 'b', squoteChar, ' ', 'x']], ⟨0, 2⟩,
        ⟨⟨0, 2⟩, ⟨0, 2⟩⟩⟩ (.basic .squote) =
      some (createSelectionResult ⟨[[squoteChar, 'a', 'b', squoteChar, ' ', 'x']], ⟨0, 2⟩,
        ⟨⟨0, 2⟩, ⟨0, 2⟩⟩⟩ ⟨0, 0 + 1, 3, 3 + 1⟩) :=
  (C3_quote_selection ⟨[[squoteChar, 'a', 'b', squoteChar, ' ', 'x']], ⟨0, 2⟩,
      ⟨⟨0, 2⟩, ⟨0, 2⟩⟩⟩ .squote (by decide)).2.1 (0, 3) (by decide) (by decide) (by decide)

theorem isPrefixAt_drop (text pat : List Char) (a j : Nat) :
    isPrefixAt (text.drop a) pat j = isPrefixAt text pat (a + j) := by
  unfold isPrefixAt
  rw [List.drop_drop]

theorem tagName_roundtrip (name : List Char) :
    (('<' :: name ++ ['>']).drop 1).dropLast = name := by
  simp

theorem getPairDelimiter_tag (name : List Char) :
    getPairDelimiter (.tag name) = ('<' :: name ++ ['>'], '<' :: '/' :: name ++ ['>']) := rfl

theorem matchOpenAt_oob {text name : List Char} {i : Nat} (h : text.length ≤ i) :
    matchOpenAt text name i = none := by
  unfold matchOpenAt
  rw [if_neg]
  intro hp
  have := isPrefixAt_length (by simp) hp
  simp at this
  omega

theorem matchOpenAt_of_plain {text name : List Char} {i : Nat}
    (h : isPrefixAt text ('<' :: name ++ ['>']) i = true) :
    matchOpenAt text name i = some (i + name.length + 2) := by
  obtain ⟨h1, h2⟩ := @isPrefixAt_append_elim text ('<' :: name) ['>'] i (by simpa using h)
  unfold matchOpenAt
  rw [if_pos h1]
  have hidx : indexOfStrFrom text ['>'] (i + 1 + name.length) = some (i + ('<' :: name).length) := by
    apply indexOfStrFrom_eq_some (by simp)
    · simp
      omega
    · exact h2
    · intro j hj1 hj2
      simp at hj2
      omega
  rw [hidx]
  simp
  omega

theorem matchOpenAt_is_plain {text name : List Char} {i e : Nat}
    (hm : matchOpenAt text name i = some e) (he : e = i + name.length + 2) :
    isPrefixAt text ('<' :: name ++ ['>']) i = true := by
  unfold matchOpenAt at hm
  by_cases h1 : isPrefixAt text ('<' :: name) i = true
  · rw [if_pos h1] at hm
    cases hidx : indexOfStrFrom text ['>'] (i + 1 + name.length) with
    | none => rw [hidx] at hm; simp at hm
    | some j =>
      rw [hidx] at hm
      rw [Option.some_inj] at hm
      have hj : j = i + 1 + name.length := by omega
      obtain ⟨_, hjp, _⟩ := indexOfStrFrom_some hidx
      subst hj
      have hjp' : isPrefixAt text ['>'] (i + ('<' :: name).length) = true := by
        have harith : i + ('<' :: name).length = i + 1 + name.length := by
          simp
          omega
        rw [harith]
        exact hjp
      have : isPrefixAt text (('<' :: name) ++ ['>']) i = true :=
        isPrefixAt_append h1 hjp'
      simpa using this
  · rw [if_neg h1] at hm
    simp at hm

theorem matchOpenAt_bound {text name : List Char} {i e : Nat}
    (hm : matchOpenAt text name i = some e) :
    i + 1 + name.length ≤ e - 1 + 1 ∧ e ≤ text.length ∧ i + name.length + 2 ≤ e := by
  unfold matchOpenAt at hm
  by_cases h1 : isPrefixAt text ('<' :: name) i = true
  · rw [if_pos h1] at hm
    cases hidx : indexOfStrFrom text ['>'] (i + 1 + name.length) with
    | none => rw [hidx] at hm; simp at hm
    | some j =>
      rw [hidx] at hm
      rw [Option.some_inj] at hm
      obtain ⟨hj1, hjp, _⟩ := indexOfStrFrom_some hidx
      have := isPrefixAt_length (by simp) hjp
      simp at this
      omega
  · rw [if_neg h1] at hm
    simp at hm

theorem firstOpenMatchFrom_some {text name : List Char} :
    ∀ {fuel i s e : Nat}, firstOpenMatchFrom text name fuel i = some (s, e) →
    i ≤ s ∧ matchOpenAt text name s = some e ∧
      ∀ j, i ≤ j → j < s → matchOpenAt text name j = none := by
  intro fuel
  induction fuel with
  | zero => intro i s e h; simp [firstOpenMatchFrom] at h
  | succ fl ih =>
    intro i s e h
    rw [firstOpenMatchFrom] at h
    cases hm : matchOpenAt text name i with
    | some e0 =>
      rw [hm] at h
      simp at h
      obtain ⟨h1, h2⟩ := h
      subst h1
      subst h2
      exact ⟨le_refl _, hm, fun j hj1 hj2 => by omega⟩
    | none =>
      rw [hm] at h
      obtain ⟨h1, h2, h3⟩ := ih h
      refine ⟨by omega, h2, fun j hj1 hj2 => ?_⟩
      rcases eq_or_lt_of_le hj1 with he | hl
      · rw [← he]; exact hm
      · exact h3 j (by omega) hj2

theorem firstOpenMatchFrom_none {text name : List Char} :
    ∀ {fuel i : Nat}, firstOpenMatchFrom text name fuel i = none →
    ∀ j, i ≤ j → j < i + fuel → matchOpenAt text name j = none := by
  intro fuel
  induction fuel with
  | zero => intro i _ j _ h2; omega
  | succ fl ih =>
    intro i h j hj1 hj2
    rw [firstOpenMatchFrom] at h
    cases hm : matchOpenAt text name i with
    | some e0 => rw [hm] at h; simp at h
    | none =>
      rw [hm] at h
      rcases eq_or_lt_of_le hj1 with he | hl
      · rw [← he]; exact hm
      · exact ih h j (by omega) (by omega)

theorem firstOpenMatch_none {text name : List Char}
    (h : firstOpenMatch text name = none) :
    ∀ j, matchOpenAt text name j = none := by
  intro j
  by_cases hb : j < text.length + 1
  · exact firstOpenMatchFrom_none h j (Nat.zero_le _) (by omega)
  · exact matchOpenAt_oob (by omega)

theorem firstOpenMatch_some {text name : List Char} {s e : Nat}
    (h : firstOpenMatch text name = some (s, e)) :
    matchOpenAt text name s = some e ∧ ∀ j, j < s → matchOpenAt text name j = none :=
  ⟨(firstOpenMatchFrom_some h).2.1,
   fun j hj => (firstOpenMatchFrom_some h).2.2 j (Nat.zero_le _) hj⟩

theorem lastScanIdx_spec {text pat : List Char} :
    ∀ (fuel i : Nat) (best : Option Nat),
    (lastScanIdx text pat fuel i best = best ∧
      ∀ j, i ≤ j → j < i + fuel → isPrefixAt text pat j = false) ∨
    (∃ f, lastScanIdx text pat fuel i best = some f ∧ i ≤ f ∧ f < i + fuel ∧
      isPrefixAt text pat f = true ∧
      ∀ j, f < j → j < i + fuel → isPrefixAt text pat j = false) := by
  intro fuel
  induction fuel with
  | zero => intro i best; exact Or.inl ⟨rfl, fun j h1 h2 => by omega⟩
  | succ fl ih =>
    intro i best
    rw [lastScanIdx]
    by_cases hp : isPrefixAt text pat i = true
    · rw [if_pos hp]
      rcases ih (i + 1) (some i) with ⟨h1, h2⟩ | ⟨f, h1, h2, h3, h4, h5⟩
      · exact Or.inr ⟨i, h1, le_refl _, by omega, hp,
          fun j hj1 hj2 => h2 j (by omega) (by omega)⟩
      · exact Or.inr ⟨f, h1, by omega, by omega, h4,
          fun j hj1 hj2 => h5 j hj1 (by omega)⟩
    · have hp' : isPrefixAt text pat i = false := by simpa using hp
      rw [if_neg (by simp [hp'])]
      rcases ih (i + 1) best with ⟨h1, h2⟩ | ⟨f, h1, h2, h3, h4, h5⟩
      · refine Or.inl ⟨h1, fun j hj1 hj2 => ?_⟩
        rcases eq_or_lt_of_le hj1 with he | hl
        · rw [← he]; exact hp'
        · exact h2 j (by omega) (by omega)
      · exact Or.inr ⟨f, h1, by omega, by omega, h4,
          fun j hj1 hj2 => h5 j hj1 (by omega)⟩

theorem lastIndexOfStr_spec (text pat : List Char) (hne : pat ≠ []) :
    (lastIndexOfStr text pat = none ∧ ∀ j, isPrefixAt text pat j = false) ∨
    (∃ f, lastIndexOfStr text pat = some f ∧ isPrefixAt text pat f = true ∧
      ∀ j, f < j → isPrefixAt text pat j = false) := by
  have hoob : ∀ j, text.length + 1 ≤ j + 1 → j ≥ text.length + 1 →
      isPrefixAt text pat j = false := by
    intro j _ hj
    by_contra hcon
    have hp : isPrefixAt text pat j = true := by simpa using hcon
    have := isPrefixAt_length hne hp
    have hlenpat : 1 ≤ pat.length := by
      cases pat with
      | nil => exact absurd rfl hne
      | cons a l => simp
    omega
  rcases @lastScanIdx_spec text pat (text.length + 1) 0 none with
    ⟨h1, h2⟩ | ⟨f, h1, _, h3, h4, h5⟩
  · refine Or.inl ⟨h1, fun j => ?_⟩
    by_cases hb : j < text.length + 1
    · exact h2 j (Nat.zero_le _) (by omega)
    · exact hoob j (by omega) (by omega)
  · refine Or.inr ⟨f, h1, h4, fun j hj => ?_⟩
    by_cases hb : j < text.length + 1
    · exact h5 j hj (by omega)
    · exact hoob j (by omega) (by omega)

theorem findSurroundingTagPair_tag_eq (state : EditorState) (text name : List Char) (c : Nat) :
    findSurroundingTagPair state text c (getPairDelimiter (.tag name)) =
      match firstOpenMatch (text.take c) name with
      | none => none
      | some m =>
        match lastIndexOfStr (text.take c) (jsSubstring (text.take c) m.1 m.2) with
        | none => none
        | some lastOpeningIndex =>
          match indexOfStr
              (text.drop (lastOpeningIndex + (jsSubstring (text.take c) m.1 m.2).length))
              ('<' :: '/' :: name ++ ['>']) with
          | none => none
          | some nextClosingIndex =>
            if c ≤ lastOpeningIndex + (jsSubstring (text.take c) m.1 m.2).length ∨
               c ≥ lastOpeningIndex + (jsSubstring (text.take c) m.1 m.2).length + nextClosingIndex
            then none
            else some (createSelectionResult state
              ⟨lastOpeningIndex,
               lastOpeningIndex + (jsSubstring (text.take c) m.1 m.2).length,
               lastOpeningIndex + (jsSubstring (text.take c) m.1 m.2).length + nextClosingIndex,
               lastOpeningIndex + (jsSubstring (text.take c) m.1 m.2).length + nextClosingIndex +
                 ('<' :: '/' :: name ++ ['>']).length⟩) := by
  simp only [findSurroundingTagPair, getPairDelimiter_tag, tagName_roundtrip]

/-- C5 (amended): for a tag descriptor whose same-named opening tags before
the cursor are all attribute-free (every `<name[^>]*>` match in the text
before the cursor is exactly `<name>`), `findSurroundingPair` locates the
nearest opening occurrence of `<name>` before the cursor, pairs it with the
nearest literal `</name>` occurrence after its end, and returns the content
range between them exactly when the cursor sits strictly inside, null
otherwise (including when no opening occurrence precedes the cursor or no
closing occurrence follows). -/
theorem C5_tag_selection (state : EditorState) (name text : List Char) (c : Nat)
    (htext : text = documentText state)
    (hcur : c = positionToOffset state state.cursorPosition)
    (hplain : ∀ i < (text.take c).length, ∀ e ∈ matchOpenAt (text.take c) name i,
      e = i + name.length + 2) :
    ((∀ j, isPrefixAt (text.take c) ('<' :: name ++ ['>']) j = false) →
      findSurroundingPair state (.tag name) = none) ∧
    (∀ o0, isPrefixAt (text.take c) ('<' :: name ++ ['>']) o0 = true →
      (∀ j, o0 < j → isPrefixAt (text.take c) ('<' :: name ++ ['>']) j = false) →
      ((∀ k0, o0 + (name.length + 2) ≤ k0 →
        isPrefixAt text ('<' :: '/' :: name ++ ['>']) k0 = true →
        (∀ j, o0 + (name.length + 2) ≤ j → j < k0 →
          isPrefixAt text ('<' :: '/' :: name ++ ['>']) j = false) →
        ((o0 + (name.length + 2) < c ∧ c < k0 →
          findSurroundingPair state (.tag name) =
            some (createSelectionResult state
              ⟨o0, o0 + (name.length + 2), k0, k0 + (name.length + 3)⟩)) ∧
         (¬(o0 + (name.length + 2) < c ∧ c < k0) →
          findSurroundingPair state (.tag name) = none))) ∧
       ((∀ j, o0 + (name.length + 2) ≤ j →
          isPrefixAt text ('<' :: '/' :: name ++ ['>']) j = false) →
        findSurroundingPair state (.tag name) = none))) := by
  have hbase : findSurroundingPair state (.tag name) =
      findSurroundingTagPair state text c (getPairDelimiter (.tag name)) := by
    rw [htext, hcur]
    exact findSurroundingPair_tag_eq state name
  have hunf := findSurroundingTagPair_tag_eq state text name c
  have hplen : ('<' :: name ++ ['>']).length = name.length + 2 := by simp
  have hclen : ('<' :: '/' :: name ++ ['>']).length = name.length + 3 := by simp
  constructor
  · -- no opening occurrence before cursor
    intro hno
    have hfom : firstOpenMatch (text.take c) name = none := by
      cases hfm : firstOpenMatch (text.take c) name with
      | none => rfl
      | some m =>
        exfalso
        obtain ⟨hm, _⟩ := firstOpenMatch_some hfm
        obtain ⟨hb1, hb2, hb3⟩ := matchOpenAt_bound hm
        have hlt : m.1 < (text.take c).length := by omega
        have he := hplain m.1 hlt m.2 hm
        have hpl := matchOpenAt_is_plain hm he
        rw [hno m.1] at hpl
        exact Bool.false_ne_true hpl
    rw [hbase, hunf, hfom]
  · intro o0 ho0p ho0max
    -- the first match and its shape
    have hplain_all : ∀ j e, matchOpenAt (text.take c) name j = some e →
        isPrefixAt (text.take c) ('<' :: name ++ ['>']) j = true := by
      intro j e hm
      obtain ⟨hb1, hb2, hb3⟩ := matchOpenAt_bound hm
      have hlt : j < (text.take c).length := by omega
      exact matchOpenAt_is_plain hm (hplain j hlt e hm)
    obtain ⟨s, e, hfom⟩ : ∃ s e, firstOpenMatch (text.take c) name = some (s, e) := by
      cases hfm : firstOpenMatch (text.take c) name with
      | none =>
        exfalso
        have := firstOpenMatch_none hfm o0
        rw [matchOpenAt_of_plain ho0p] at this
        exact Option.noConfusion this
      | some m => exact ⟨m.1, m.2, rfl⟩
    obtain ⟨hm, _⟩ := firstOpenMatch_some hfom
    obtain ⟨hb1, hb2, hb3⟩ := matchOpenAt_bound hm
    have hlt : s < (text.take c).length := by omega
    have he : e = s + name.length + 2 := hplain s hlt e hm
    have hspl : isPrefixAt (text.take c) ('<' :: name ++ ['>']) s = true :=
      matchOpenAt_is_plain hm he
    -- the matched text is the plain opening tag
    have hmatch : jsSubstring (text.take c) s e = '<' :: name ++ ['>'] := by
      rw [jsSubstring_eq_extract (by omega) hb2]
      have : e - s = ('<' :: name ++ ['>']).length := by rw [hplen]; omega
      rw [this]
      exact isPrefixAt_take hspl
    -- lastIndexOf finds exactly the given nearest occurrence
    have hlast : lastIndexOfStr (text.take c) ('<' :: name ++ ['>']) = some o0 := by
      rcases lastIndexOfStr_spec (text.take c) ('<' :: name ++ ['>']) (by simp) with
        ⟨_, hall⟩ | ⟨f, hf1, hf2, hf3⟩
      · rw [hall o0] at ho0p
        exact absurd ho0p Bool.false_ne_true
      · have hfe : f = o0 := by
          rcases Nat.lt_trichotomy f o0 with hlt1 | heq | hgt1
          · rw [hf3 o0 hlt1] at ho0p
            exact absurd ho0p Bool.false_ne_true
          · exact heq
          · rw [ho0max f hgt1] at hf2
            exact absurd hf2 Bool.false_ne_true
        rw [hfe] at hf1
        exact hf1
    constructor
    · -- a closing occurrence exists at-or-after the opening end
      intro k0 hk0ge hk0p hk0min
      have hidx : indexOfStr (text.drop (o0 + (name.length + 2)))
          ('<' :: '/' :: name ++ ['>']) = some (k0 - (o0 + (name.length + 2))) := by
        apply indexOfStrFrom_eq_some (by simp) (Nat.zero_le _)
        · rw [isPrefixAt_drop]
          rw [show o0 + (name.length + 2) + (k0 - (o0 + (name.length + 2))) = k0 by omega]
          exact hk0p
        · intro j _ hj2
          rw [isPrefixAt_drop]
          exact hk0min (o0 + (name.length + 2) + j) (by omega) (by omega)
      have heqn : findSurroundingPair state (.tag name) =
          (if c ≤ o0 + (name.length + 2) ∨ c ≥ o0 + (name.length + 2) + (k0 - (o0 + (name.length + 2)))
           then none
           else some (createSelectionResult state
            ⟨o0, o0 + (name.length + 2),
             o0 + (name.length + 2) + (k0 - (o0 + (name.length + 2))),
             o0 + (name.length + 2) + (k0 - (o0 + (name.length + 2))) +
               ('<' :: '/' :: name ++ ['>']).length⟩)) := by
        rw [hbase, hunf, hfom]
        show (match lastIndexOfStr (text.take c) (jsSubstring (text.take c) s e) with
          | none => none
          | some lastOpeningIndex =>
            match indexOfStr
                (text.drop (lastOpeningIndex + (jsSubstring (text.take c) s e).length))
                ('<' :: '/' :: name ++ ['>']) with
            | none => none
            | some nextClosingIndex =>
              if c ≤ lastOpeningIndex + (jsSubstring (text.take c) s e).length ∨
                 c ≥ lastOpeningIndex + (jsSubstring (text.take c) s e).length + nextClosingIndex
              then none
              else some (createSelectionResult state
                ⟨lastOpeningIndex,
                 lastOpeningIndex + (jsSubstring (text.take c) s e).length,
                 lastOpeningIndex + (jsSubstring (text.take c) s e).length + nextClosingIndex,
                 lastOpeningIndex + (jsSubstring (text.take c) s e).length + nextClosingIndex +
                   ('<' :: '/' :: name ++ ['>']).length⟩)) = _
        simp only [hmatch, hplen, hlast, hidx]
      rw [show o0 + (name.length + 2) + (k0 - (o0 + (name.length + 2))) = k0 by omega] at heqn
      constructor
      · intro hin
        rw [heqn, if_neg (by omega), hclen]
      · intro hout
        rw [heqn, if_pos (by omega)]
    · -- no closing occurrence after the opening end
      intro hnoc
      have hidx : indexOfStr (text.drop (o0 + (name.length + 2)))
          ('<' :: '/' :: name ++ ['>']) = none := by
        apply indexOfStrFrom_eq_none
        intro j _
        rw [isPrefixAt_drop]
        exact hnoc (o0 + (name.length + 2) + j) (by omega)
      rw [hbase, hunf, hfom]
      show (match lastIndexOfStr (text.take c) (jsSubstring (text.take c) s e) with
        | none => none
        | some lastOpeningIndex =>
          match indexOfStr
              (text.drop (lastOpeningIndex + (jsSubstring (text.take c) s e).length))
              ('<' :: '/' :: name ++ ['>']) with
          | none => none
          | some nextClosingIndex =>
            if c ≤ lastOpeningIndex + (jsSubstring (text.take c) s e).length ∨
               c ≥ lastOpeningIndex + (jsSubstring (text.take c) s e).length + nextClosingIndex
            then none
            else some (createSelectionResult state
              ⟨lastOpeningIndex,
               lastOpeningIndex + (jsSubstring (text.take c) s e).length,
               lastOpeningIndex + (jsSubstring (text.take c) s e).length + nextClosingIndex,
               lastOpeningIndex + (jsSubstring (text.take c) s e).length + nextClosingIndex +
                 ('<' :: '/' :: name ++ ['>']).length⟩)) = none
      simp only [hmatch, hplen, hlast, hidx]

/-- C5 counterexample: in the document `<div>a<div x>bb</div>c</div>` with the
cursor between the two b characters (offset 14), the nearest opening-tag
occurrence of `div` before the cursor is the attributed `<div x>` at offset 6
(its match ends at 13, and no later match starts before the cursor), so the
claim requires the content range to start at position (0, 13); the code
instead anchors on the last occurrence of the first match text `<div>` and
returns the content range starting at (0, 5). -/
theorem C5_counterexample :
    findSurroundingPair ⟨["<div>a<div x>bb</div>c</div>".toList], ⟨0, 14⟩, ⟨⟨0, 14⟩, ⟨0, 14⟩⟩⟩
        (.tag "div".toList) =
      some (createSelectionResult
        ⟨["<div>a<div x>bb</div>c</div>".toList], ⟨0, 14⟩, ⟨⟨0, 14⟩, ⟨0, 14⟩⟩⟩
        ⟨0, 5, 15, 21⟩) ∧
    matchOpenAt ((documentText ⟨["<div>a<div x>bb</div>c</div>".toList], ⟨0, 14⟩,
        ⟨⟨0, 14⟩, ⟨0, 14⟩⟩⟩).take 14) "div".toList 6 = some 13 ∧
    (∀ j, j < 14 → 6 < j →
      matchOpenAt ((documentText ⟨["<div>a<div x>bb</div>c</div>".toList], ⟨0, 14⟩,
        ⟨⟨0, 14⟩, ⟨0, 14⟩⟩⟩).take 14) "div".toList j = none) ∧
    (createSelectionResult
        ⟨["<div>a<div x>bb</div>c</div>".toList], ⟨0, 14⟩, ⟨⟨0, 14⟩, ⟨0, 14⟩⟩⟩
        ⟨0, 5, 15, 21⟩).range.start = ⟨0, 5⟩ ∧
    offsetToPosition ⟨["<div>a<div x>bb</div>c</div>".toList], ⟨0, 14⟩, ⟨⟨0, 14⟩, ⟨0, 14⟩⟩⟩ 13 =
      ⟨0, 13⟩ ∧
    ((⟨0, 5⟩ : Position) ≠ ⟨0, 13⟩) := by
  decide

/-- Witness for C5 at a nested same-named document with attribute-free tags:
with the cursor in the innermost content, the innermost pair is selected. -/
theorem C5_tag_selection_witness :
    findSurroundingPair
        ⟨["<div><div>XX<div>YY</div>ZZ</div></div>".toList], ⟨0, 18⟩, ⟨⟨0, 18⟩, ⟨0, 18⟩⟩⟩
        (.tag "div".toList) =
      some (createSelectionResult
        ⟨["<div><div>XX<div>YY</div>ZZ</div></div>".toList], ⟨0, 18⟩, ⟨⟨0, 18⟩, ⟨0, 18⟩⟩⟩
        ⟨12, 12 + ("div".toList.length + 2), 19, 19 + ("div".toList.length + 3)⟩) := by
  have hthm := C5_tag_selection
    ⟨["<div><div>XX<div>YY</div>ZZ</div></div>".toList], ⟨0, 18⟩, ⟨⟨0, 18⟩, ⟨0, 18⟩⟩⟩
    "div".toList
    (documentText ⟨["<div><div>XX<div>YY</div>ZZ</div></div>".toList], ⟨0, 18⟩, ⟨⟨0, 18⟩, ⟨0, 18⟩⟩⟩)
    (positionToOffset ⟨["<div><div>XX<div>YY</div>ZZ</div></div>".toList], ⟨0, 18⟩, ⟨⟨0, 18⟩, ⟨0, 18⟩⟩⟩
      (⟨["<div><div>XX<div>YY</div>ZZ</div></div>".toList], ⟨0, 18⟩,
        ⟨⟨0, 18⟩, ⟨0, 18⟩⟩⟩ : EditorState).cursorPosition)
    rfl rfl (by decide)
  have ho0max : ∀ j, 12 < j →
      isPrefixAt ((documentText ⟨["<div><div>XX<div>YY</div>ZZ</div></div>".toList], ⟨0, 18⟩,
          ⟨⟨0, 18⟩, ⟨0, 18⟩⟩⟩).take
        (positionToOffset ⟨["<div><div>XX<div>YY</div>ZZ</div></div>".toList], ⟨0, 18⟩, ⟨⟨0, 18⟩, ⟨0, 18⟩⟩⟩
          (⟨["<div><div>XX<div>YY</div>ZZ</div></div>".toList], ⟨0, 18⟩,
            ⟨⟨0, 18⟩, ⟨0, 18⟩⟩⟩ : EditorState).cursorPosition))
        ('<' :: "div".toList ++ ['>']) j = false := by
    have hb : ∀ j, j < 18 → 12 < j →
        isPrefixAt ((documentText ⟨["<div><div>XX<div>YY</div>ZZ</div></div>".toList], ⟨0, 18⟩,
            ⟨⟨0, 18⟩, ⟨0, 18⟩⟩⟩).take
          (positionToOffset ⟨["<div><div>XX<div>YY</div>ZZ</div></div>".toList], ⟨0, 18⟩, ⟨⟨0, 18⟩, ⟨0, 18⟩⟩⟩
            (⟨["<div><div>XX<div>YY</div>ZZ</div></div>".toList], ⟨0, 18⟩,
              ⟨⟨0, 18⟩, ⟨0, 18⟩⟩⟩ : EditorState).cursorPosition))
          ('<' :: "div".toList ++ ['>']) j = false := by decide
    intro j hj
    by_cases hlt : j < 18
    · exact hb j hlt hj
    · by_contra hcon
      simp only [Bool.not_eq_false] at hcon
      have hlen := isPrefixAt_length (by simp) hcon
      have h18 : ((documentText ⟨["<div><div>XX<div>YY</div>ZZ</div></div>".toList], ⟨0, 18⟩,
          ⟨⟨0, 18⟩, ⟨0, 18⟩⟩⟩).take
        (positionToOffset ⟨["<div><div>XX<div>YY</div>ZZ</div></div>".toList], ⟨0, 18⟩, ⟨⟨0, 18⟩, ⟨0, 18⟩⟩⟩
          (⟨["<div><div>XX<div>YY</div>ZZ</div></div>".toList], ⟨0, 18⟩,
            ⟨⟨0, 18⟩, ⟨0, 18⟩⟩⟩ : EditorState).cursorPosition)).length = 18 := by decide
      rw [h18] at hlen
      simp at hlen
      omega
  have hk0min : ∀ j, 12 + ("div".toList.length + 2) ≤ j → j < 19 →
      isPrefixAt (documentText ⟨["<div><div>XX<div>YY</div>ZZ</div></div>".toList], ⟨0, 18⟩,
          ⟨⟨0, 18⟩, ⟨0, 18⟩⟩⟩)
        ('<' :: '/' :: "div".toList ++ ['>']) j = false := by
    have hb : ∀ j, j < 19 → 17 ≤ j →
        isPrefixAt (documentText ⟨["<div><div>XX<div>YY</div>ZZ</div></div>".toList], ⟨0, 18⟩,
            ⟨⟨0, 18⟩, ⟨0, 18⟩⟩⟩)
          ('<' :: '/' :: "div".toList ++ ['>']) j = false := by decide
    intro j h1 h2
    exact hb j h2 (by simpa using h1)
  exact (((hthm.2 12 (by decide) ho0max).1 19 (by decide) (by decide) hk0min).1 (by decide))

/-- C4 counterexample: in a document consisting of a closed single-quote pair
followed by text, with the cursor after the closing quote, the quote fallback
path still contributes an entry, so `findAllSurroundingPairs` returns a pair
whose whole range lies strictly before the cursor: the entry does not enclose
the cursor. -/
theorem C4_counterexample :
    findAllSurroundingPairs ⟨[[squoteChar, 'a', squoteChar, ' ', 'b']], ⟨0, 5⟩, ⟨⟨0, 5⟩, ⟨0, 5⟩⟩⟩ =
      [⟨.basic .squote, ⟨⟨0, 1⟩, ⟨0, 2⟩⟩, ['a']⟩] ∧
    posLt (⟨0, 2⟩ : Position)
      (⟨[[squoteChar, 'a', squoteChar, ' ', 'b']], ⟨0, 5⟩, ⟨⟨0, 5⟩, ⟨0, 5⟩⟩⟩ :
        EditorState).cursorPosition := by
  decide

/-- C4 (amended): `findAllSurroundingPairs` returns one entry per quote or
bracket type for which `findSurroundingPair` succeeds, carrying that result's
range and text (such an entry need not enclose the cursor: the quote fallback
can select a pair entirely before it), plus one entry per well-formed tag
pair whose inner span strictly contains the cursor offset; every tag-typed
entry arises from such a pair, and every basic-typed entry from the
corresponding `findSurroundingPair` result. -/
theorem C4_all_surrounding_pairs (state : EditorState) :
    (∀ b : BasicPairType, ∀ r, b ∈ quoteTypes ++ bracketTypes →
      findSurroundingPair state (.basic b) = some r →
      (⟨.basic b, r.range, r.text.getD []⟩ : DetectedPair) ∈ findAllSurroundingPairs state) ∧
    (∀ tp ∈ findAllTagPairs (documentText state),
      isOffsetBetween (positionToOffset state state.cursorPosition)
        tp.openingEnd tp.closingStart = true →
      createDetectedPair state tp ∈ findAllSurroundingPairs state) ∧
    (∀ e ∈ findAllSurroundingPairs state, ∀ nm, e.pairType = .tag nm →
      ∃ tp ∈ findAllTagPairs (documentText state),
        isOffsetBetween (positionToOffset state state.cursorPosition)
          tp.openingEnd tp.closingStart = true ∧
        e = createDetectedPair state tp) ∧
    (∀ e ∈ findAllSurroundingPairs state, ∀ b, e.pairType = .basic b →
      ∃ r, findSurroundingPair state (.basic b) = some r ∧
        e = ⟨.basic b, r.range, r.text.getD []⟩) := by
  refine ⟨?_, ?_, ?_, ?_⟩
  · intro b r hb hr
    rcases List.mem_append.mp hb with hq | hbr
    · have hmem : (⟨.basic b, r.range, r.text.getD []⟩ : DetectedPair) ∈
          findQuotePairs state := by
        simp only [findQuotePairs, findPairsOfTypes]
        exact List.mem_filterMap.mpr ⟨b, hq, by rw [hr]; rfl⟩
      simp only [findAllSurroundingPairs]
      exact List.mem_append.mpr (Or.inl (List.mem_append.mpr (Or.inl hmem)))
    · have hmem : (⟨.basic b, r.range, r.text.getD []⟩ : DetectedPair) ∈
          findBracketPairs state := by
        simp only [findBracketPairs, findPairsOfTypes]
        exact List.mem_filterMap.mpr ⟨b, hbr, by rw [hr]; rfl⟩
      simp only [findAllSurroundingPairs]
      exact List.mem_append.mpr (Or.inl (List.mem_append.mpr (Or.inr hmem)))
  · intro tp htp hbet
    have hmem : createDetectedPair state tp ∈ findSurroundingTagPairs state := by
      simp only [findSurroundingTagPairs]
      exact List.mem_map.mpr ⟨tp, List.mem_filter.mpr ⟨htp, hbet⟩, rfl⟩
    simp only [findAllSurroundingPairs]
    exact List.mem_append.mpr (Or.inr hmem)
  · intro e he nm hnm
    simp only [findAllSurroundingPairs] at he
    rcases List.mem_append.mp he with hqb | htag
    · rcases List.mem_append.mp hqb with hq | hb2
      · simp only [findQuotePairs, findPairsOfTypes] at hq
        obtain ⟨b, _, hfb⟩ := List.mem_filterMap.mp hq
        rcases hopt : findSurroundingPair state (.basic b) with _ | r
        · rw [hopt] at hfb; simp at hfb
        · rw [hopt] at hfb
          have hfb2 : (⟨.basic b, r.range, r.text.getD []⟩ : DetectedPair) = e :=
            Option.some.inj hfb
          rw [← hfb2] at hnm
          simp at hnm
      · simp only [findBracketPairs, findPairsOfTypes] at hb2
        obtain ⟨b, _, hfb⟩ := List.mem_filterMap.mp hb2
        rcases hopt : findSurroundingPair state (.basic b) with _ | r
        · rw [hopt] at hfb; simp at hfb
        · rw [hopt] at hfb
          have hfb2 : (⟨.basic b, r.range, r.text.getD []⟩ : DetectedPair) = e :=
            Option.some.inj hfb
          rw [← hfb2] at hnm
          simp at hnm
    · simp only [findSurroundingTagPairs] at htag
      obtain ⟨tp, htpmem, rfl⟩ := List.mem_map.mp htag
      have hsp := List.mem_filter.mp htpmem
      exact ⟨tp, hsp.1, hsp.2, rfl⟩
  · intro e he b0 hb0
    simp only [findAllSurroundingPairs] at he
    rcases List.mem_append.mp he with hqb | htag
    · rcases List.mem_append.mp hqb with hq | hb2
      · simp only [findQuotePairs, findPairsOfTypes] at hq
        obtain ⟨b, _, hfb⟩ := List.mem_filterMap.mp hq
        rcases hopt : findSurroundingPair state (.basic b) with _ | r
        · rw [hopt] at hfb; simp at hfb
        · rw [hopt] at hfb
          have hfb2 : (⟨.basic b, r.range, r.text.getD []⟩ : DetectedPair) = e :=
            Option.some.inj hfb
          have hbb : b = b0 := by
            rw [← hfb2] at hb0
            simpa using hb0
          subst hbb
          exact ⟨r, hopt, hfb2.symm⟩
      · simp only [findBracketPairs, findPairsOfTypes] at hb2
        obtain ⟨b, _, hfb⟩ := List.mem_filterMap.mp hb2
        rcases hopt : findSurroundingPair state (.basic b) with _ | r
        · rw [hopt] at hfb; simp at hfb
        · rw [hopt] at hfb
          have hfb2 : (⟨.basic b, r.range, r.text.getD []⟩ : DetectedPair) = e :=
            Option.some.inj hfb
          have hbb : b = b0 := by
            rw [← hfb2] at hb0
            simpa using hb0
          subst hbb
          exact ⟨r, hopt, hfb2.symm⟩
    · simp only [findSurroundingTagPairs] at htag
      obtain ⟨tp, _, rfl⟩ := List.mem_map.mp htag
      simp [createDetectedPair] at hb0

/-- Witness for C4 at the nested same-named document
`<div><div>XX</div></div>` with the cursor inside the inner content: the
inner tag pair yields an entry of `findAllSurroundingPairs`. -/
theorem C4_all_surrounding_pairs_witness :
    createDetectedPair
        ⟨["<div><div>XX</div></div>".toList], ⟨0, 11⟩, ⟨⟨0, 11⟩, ⟨0, 11⟩⟩⟩
        ⟨"div".toList, 5, 10, 12, 18⟩ ∈
      findAllSurroundingPairs
        ⟨["<div><div>XX</div></div>".toList], ⟨0, 11⟩, ⟨⟨0, 11⟩, ⟨0, 11⟩⟩⟩ :=
  (C4_all_surrounding_pairs
      ⟨["<div><div>XX</div></div>".toList], ⟨0, 11⟩, ⟨⟨0, 11⟩, ⟨0, 11⟩⟩⟩).2.1
    ⟨"div".toList, 5, 10, 12, 18⟩ (by decide) (by decide)

theorem findAllOccurrencesGo_cons (fuel : Nat) {text pat : List Char} {si f : Nat}
    (hsi : si < text.length) (hidx : indexOfStrFrom text pat si = some f) :
    findAllOccurrencesGo text pat (fuel + 1) si =
      f :: findAllOccurrencesGo text pat fuel (f + 1) := by
  rw [findAllOccurrencesGo, if_pos hsi, hidx]

theorem findAllOccurrencesGo_nil_none (fuel : Nat) {text pat : List Char} {si : Nat}
    (hsi : si < text.length) (hidx : indexOfStrFrom text pat si = none) :
    findAllOccurrencesGo text pat (fuel + 1) si = [] := by
  rw [findAllOccurrencesGo, if_pos hsi, hidx]

theorem findAllOccurrencesGo_nil_ge {text pat : List Char} {si : Nat}
    (hsi : text.length ≤ si) : ∀ fuel, findAllOccurrencesGo text pat fuel si = [] := by
  intro fuel
  cases fuel with
  | zero => rfl
  | succ f => rw [findAllOccurrencesGo, if_neg (by omega)]

theorem isPrefixAt_single_false {text : List Char} {ch : Char} {i : Nat}
    (h : text[i]? ≠ some ch) : isPrefixAt text [ch] i = false := by
  cases hb : isPrefixAt text [ch] i
  · rfl
  · exact absurd (isPrefixAt_single.mp hb) h

theorem c8Doc_len : c8Doc.length = 100003 := by
  show ('(' :: 'a' :: (List.replicate 100000 '\n' ++ [')'])).length = 100003
  rw [List.length_cons, List.length_cons, List.length_append, List.length_replicate,
    List.length_singleton]

theorem c8Doc_at0 : c8Doc[0]? = some '(' := by
  show ('(' :: 'a' :: (List.replicate 100000 '\n' ++ [')']))[0]? = some '('
  rw [List.getElem?_cons_zero]

theorem c8Doc_at1 : c8Doc[1]? = some 'a' := by
  show ('(' :: 'a' :: (List.replicate 100000 '\n' ++ [')']))[1]? = some 'a'
  rw [show (1 : Nat) = 0 + 1 from rfl, List.getElem?_cons_succ, List.getElem?_cons_zero]

theorem c8Doc_mid {j : Nat} (h2 : 2 ≤ j) (hlt : j < 100002) : c8Doc[j]? = some '\n' := by
  obtain ⟨k, rfl⟩ : ∃ k, j = k + 2 := ⟨j - 2, by omega⟩
  have hstep : c8Doc[k + 2]? = (List.replicate 100000 '\n' ++ [')'])[k]? := by
    show ('(' :: 'a' :: (List.replicate 100000 '\n' ++ [')']))[k + 1 + 1]? = _
    rw [List.getElem?_cons_succ, List.getElem?_cons_succ]
  rw [hstep, List.getElem?_append_left (by rw [List.length_replicate]; omega),
    List.getElem?_replicate, if_pos (by omega)]

theorem c8Doc_last : c8Doc[100002]? = some ')' := by
  have hstep : c8Doc[100002]? = (List.replicate 100000 '\n' ++ [')'])[100000]? := by
    show ('(' :: 'a' :: (List.replicate 100000 '\n' ++ [')']))[100002]? = _
    rw [show (100002 : Nat) = 100000 + 1 + 1 from rfl]
    rw [List.getElem?_cons_succ, List.getElem?_cons_succ]
  rw [hstep, List.getElem?_append_right (le_of_eq (List.length_replicate _ _)),
    List.length_replicate, Nat.sub_self, List.getElem?_cons_zero]

theorem c8Doc_none {j : Nat} (h : 100003 ≤ j) : c8Doc[j]? = none :=
  List.getElem?_eq_none (by rw [c8Doc_len]; omega)

theorem c8_open_false : ∀ j, 1 ≤ j → isPrefixAt c8Doc ['('] j = false := by
  intro j hj
  apply isPrefixAt_single_false
  by_cases h1 : j = 1
  · subst h1; rw [c8Doc_at1]; decide
  · by_cases h2 : j < 100002
    · rw [c8Doc_mid (by omega) h2]; decide
    · by_cases h3 : j = 100002
      · subst h3; rw [c8Doc_last]; decide
      · rw [c8Doc_none (by omega)]; decide

theorem c8_close_false : ∀ j, j < 100002 → isPrefixAt c8Doc [')'] j = false := by
  intro j hj
  apply isPrefixAt_single_false
  by_cases h0 : j = 0
  · subst h0; rw [c8Doc_at0]; decide
  · by_cases h1 : j = 1
    · subst h1; rw [c8Doc_at1]; decide
    · rw [c8Doc_mid (by omega) hj]; decide

theorem c8_occ_open : findAllOccurrences c8Doc ['('] = [0] := by
  rw [findAllOccurrences, c8Doc_len]
  have hidx0 : indexOfStrFrom c8Doc ['('] 0 = some 0 :=
    indexOfStrFrom_eq_some (by simp) (le_refl 0) (isPrefixAt_single.mpr c8Doc_at0)
      (by intro j h1 h2; omega)
  have hidx1 : indexOfStrFrom c8Doc ['('] 1 = none :=
    indexOfStrFrom_eq_none (fun j hj => c8_open_false j hj)
  rw [findAllOccurrencesGo_cons 100003 (by rw [c8Doc_len]; norm_num) hidx0]
  rw [show (100003 : Nat) = 100002 + 1 from rfl,
    findAllOccurrencesGo_nil_none 100002 (by rw [c8Doc_len]; norm_num) hidx1]

theorem c8_occ_close : findAllOccurrences c8Doc [')'] = [100002] := by
  rw [findAllOccurrences, c8Doc_len]
  have hidxc : indexOfStrFrom c8Doc [')'] 0 = some 100002 :=
    indexOfStrFrom_eq_some (by simp) (Nat.zero_le _) (isPrefixAt_single.mpr c8Doc_last)
      (fun j _ hj => c8_close_false j hj)
  rw [findAllOccurrencesGo_cons 100003 (by rw [c8Doc_len]; norm_num) hidxc]
  rw [findAllOccurrencesGo_nil_ge (by rw [c8Doc_len]) 100003]

theorem c8_bal : findBalancedPairs c8Doc ['('] [')'] = [(0, 100002)] := by
  simp only [findBalancedPairs, c8_occ_open, c8_occ_close]
  rw [if_neg (by decide)]
  decide

theorem joinLines_replicate_nil_last (c : Char) :
    ∀ n, joinLines (List.replicate n [] ++ [[c]]) = List.replicate n '\n' ++ [c] := by
  intro n
  induction n with
  | zero => rfl
  | succ k ih =>
    rcases hne : List.replicate k ([] : List Char) ++ [[c]] with _ | ⟨x, xs⟩
    · have hlen2 := congrArg List.length hne
      rw [List.length_append, List.length_replicate, List.length_singleton,
        List.length_nil] at hlen2
      exact absurd hlen2 (by omega)
    · have hstep : joinLines (List.replicate (k + 1) ([] : List Char) ++ [[c]]) =
          '\n' :: joinLines (List.replicate k ([] : List Char) ++ [[c]]) := by
        rw [List.replicate_succ, List.cons_append, hne]
        rfl
      rw [hstep, ih, List.replicate_succ]
      rfl

theorem c8_doc : documentText c8State = c8Doc := by
  show joinLines (['(', 'a'] :: (List.replicate 99999 [] ++ [[')']])) = c8Doc
  rcases hne : List.replicate 99999 ([] : List Char) ++ [[')']] with _ | ⟨x, xs⟩
  · have hlen2 := congrArg List.length hne
    rw [List.length_append, List.length_replicate, List.length_singleton,
      List.length_nil] at hlen2
    exact absurd hlen2 (by omega)
  · show ['(', 'a'] ++ '\n' :: joinLines (x :: xs) = c8Doc
    rw [← hne, joinLines_replicate_nil_last]
    show '(' :: 'a' :: '\n' :: (List.replicate 99999 '\n' ++ [')']) =
      '(' :: 'a' :: (List.replicate 100000 '\n' ++ [')'])
    conv_rhs => rw [show (100000 : Nat) = 99999 + 1 from rfl, List.replicate_succ]
    rfl

theorem c8_lls : ∀ k, k ≤ 99999 → lineLensSum c8State (k + 1) = k + 3 := by
  intro k
  induction k with
  | zero => intro _; rfl
  | succ m ih =>
    intro hm
    have hline : getLineText c8State (m + 1) = [] := by
      show (['(', 'a'] :: (List.replicate 99999 ([] : List Char) ++ [[')']])).getD (m + 1) [] = []
      rw [List.getD_eq_getElem?_getD, List.getElem?_cons_succ,
        List.getElem?_append_left (by rw [List.length_replicate]; omega),
        List.getElem?_replicate, if_pos (by omega)]
      rfl
    have hstep : lineLensSum c8State (m + 1 + 1) =
        lineLensSum c8State (m + 1) + ((getLineText c8State (m + 1)).length + 1) := rfl
    rw [hstep, ih (by omega), hline]
    rw [List.length_nil]

theorem c8_lls_max : lineLensSum c8State MAX_LINES ≤ 100002 := by
  have h := c8_lls 99999 (le_refl _)
  norm_num at h
  show lineLensSum c8State 100000 ≤ 100002
  omega

theorem c8_result :
    findSurroundingPair c8State (.basic .paren) =
      some (createSelectionResult c8State ⟨0, 1, 100002, 100003⟩) := by
  have hcur : positionToOffset c8State c8State.cursorPosition = 1 := rfl
  have hd1 : (PAIR_DELIMITERS BasicPairType.paren).1 = ['('] := rfl
  have hd2 : (PAIR_DELIMITERS BasicPairType.paren).2 = [')'] := rfl
  rw [findSurroundingPair_basic, findSurroundingBasicPair_bracket _ _ _ _ (by decide),
    hcur, hd1, hd2, c8_doc, c8_bal]
  rw [@findSurroundingBracketPair_eq_inner c8State 1 [(0, 100002)] ['('] [')']
    (0, 100002) [] (by decide)]
  rfl

theorem fsppInner_some {c o k : Nat} : ∀ {cs : List Nat},
    findSurroundingPairPositionInner c o cs = some k → k ∈ cs ∧ o < k := by
  intro cs
  induction cs with
  | nil => intro h; exact Option.noConfusion h
  | cons a rest ih =>
    intro h
    rw [findSurroundingPairPositionInner] at h
    by_cases h1 : a ≤ o
    · rw [if_pos h1] at h
      obtain ⟨hm, hk⟩ := ih h
      exact ⟨List.mem_cons_of_mem _ hm, hk⟩
    · rw [if_neg h1] at h
      by_cases h2 : c > o ∧ c < a
      · rw [if_pos h2] at h
        have ha := Option.some.inj h
        subst ha
        exact ⟨List.mem_cons_self _ _, by omega⟩
      · rw [if_neg h2] at h
        obtain ⟨hm, hk⟩ := ih h
        exact ⟨List.mem_cons_of_mem _ hm, hk⟩

theorem fsppGo_some {c ol cl : Nat} {cs : List Nat} {pp : PairPosition} :
    ∀ {os : List Nat},
    findSurroundingPairPositionGo c cs ol cl os = some pp →
    ∃ o ∈ os, ∃ k ∈ cs, pp = ⟨o, o + ol, k, k + cl⟩ ∧ o < k := by
  intro os
  induction os with
  | nil => intro h; exact Option.noConfusion h
  | cons o rest ih =>
    intro h
    rw [findSurroundingPairPositionGo] at h
    by_cases h1 : o ≥ c
    · rw [if_pos h1] at h
      obtain ⟨o2, ho2, hrest⟩ := ih h
      exact ⟨o2, List.mem_cons_of_mem _ ho2, hrest⟩
    · rw [if_neg h1] at h
      split at h
      · rename_i k hin
        obtain ⟨hkm, hok⟩ := fsppInner_some hin
        exact ⟨o, List.mem_cons_self _ _, k, hkm, (Option.some.inj h).symm, hok⟩
      · rename_i hin
        obtain ⟨o2, ho2, hrest⟩ := ih h
        exact ⟨o2, List.mem_cons_of_mem _ ho2, hrest⟩

theorem quote_result_shape (state : EditorState) (c : Nat) (text q : List Char)
    (hq1 : q.length = 1) (r : SelectionRangeWithPairResult)
    (h : findSurroundingQuotePair state c (findBalancedPairs text q q) q q = some r) :
    ∃ pp : PairPosition, r = createSelectionResult state pp ∧
      pp.openingEnd ≤ pp.closingStart ∧ pp.closingStart ≤ text.length := by
  simp only [findSurroundingQuotePair] at h
  split at h
  · exact Option.noConfusion h
  · rename_i bp hbp
    have hmem : bp ∈ findBalancedPairs text q q := by
      rcases quoteGo_mem c q.length (findBalancedPairs text q q) none MAX_SAFE_INTEGER bp hbp
        with hm | hm
      · exact hm
      · exact Option.noConfusion hm
    have hpc : bp ∈ pairConsecutive (findAllOccurrences text q) := by
      simpa [findBalancedPairs] using hmem
    have hlt : bp.1 < bp.2 :=
      (pairConsecutive_struct (findAllOccurrences text q) findAllOccurrences_sorted).1 bp hpc
    have hm2 := (pairConsecutive_mem _ bp hpc).2
    have hpf := findAllOccurrences_mem bp.2 hm2
    have hbound := isPrefixAt_length
      (by intro hc0; rw [hc0] at hq1; simp at hq1) hpf
    refine ⟨⟨bp.1, bp.1 + q.length, bp.2, bp.2 + q.length⟩, (Option.some.inj h).symm, ?_, ?_⟩
    · show bp.1 + q.length ≤ bp.2
      omega
    · show bp.2 ≤ text.length
      omega

theorem bracket_result_shape (state : EditorState) (c : Nat) (text op cl : List Char)
    (hne : op ≠ cl) (hol : op.length = 1) (hcl : cl.length = 1)
    (hdoc : documentText state = text) (r : SelectionRangeWithPairResult)
    (h : findSurroundingBracketPair state c (findBalancedPairs text op cl) op cl = some r) :
    ∃ pp : PairPosition, r = createSelectionResult state pp ∧
      pp.openingEnd ≤ pp.closingStart ∧ pp.closingStart ≤ text.length := by
  rcases hfil : (findBalancedPairs text op cl).filter
      (fun pair => decide (pair.1 < c ∧ c < pair.2)) with _ | ⟨hd, tl⟩
  · rw [findSurroundingBracketPair_eq_fallback state c _ op cl hfil, hdoc] at h
    split at h
    · exact Option.noConfusion h
    · rename_i pp2 hpp
      simp only [findSurroundingPairPosition] at hpp
      obtain ⟨o, ho, k, hk, rfl, hok⟩ := fsppGo_some hpp
      refine ⟨_, (Option.some.inj h).symm, ?_, ?_⟩
      · show o + op.length ≤ k
        omega
      · show k ≤ text.length
        have hpf := findAllOccurrences_mem k hk
        have hb := isPrefixAt_length (by intro hc0; rw [hc0] at hcl; simp at hcl) hpf
        omega
  · rw [@findSurroundingBracketPair_eq_inner state c (findBalancedPairs text op cl)
      op cl hd tl hfil] at h
    have hpick := foldl_pick_spec (fun p : Nat × Nat => p.2 - p.1)
      (fun smallest current =>
        if current.2 - current.1 < smallest.2 - smallest.1 then current else smallest)
      minSpan_pick_spec (hd :: tl) hd
    set m := List.foldl
      (fun smallest current =>
        if current.2 - current.1 < smallest.2 - smallest.1 then current else smallest)
      hd (hd :: tl) with hmdef
    have hmem : m ∈ hd :: tl := by
      rcases hpick.1 with he | he
      · rw [he]; exact List.mem_cons_self _ _
      · exact he
    rw [← hfil] at hmem
    obtain ⟨hmbal, hmcond⟩ := List.mem_filter.mp hmem
    have hmc : m.1 < c ∧ c < m.2 := of_decide_eq_true hmcond
    have hmstack : m.1 ∈ findAllOccurrences text op ∧ m.2 ∈ findAllOccurrences text cl := by
      have hmbal2 : m ∈ stackPairsGo
          (allIndices (findAllOccurrences text op) (findAllOccurrences text cl)) [] [] := by
        simp only [findBalancedPairs] at hmbal
        rwa [if_neg hne] at hmbal
      refine stackPairsGo_spec (fun x => x ∈ findAllOccurrences text op)
        (fun x => x ∈ findAllOccurrences text cl) _ [] [] ?_ (by simp) (by simp) m hmbal2
      intro ev hev
      simp only [allIndices] at hev
      rcases mergeByIndexGo_mem _ _ _ ev hev with hm | hm
      · obtain ⟨i, hi, hi2⟩ := List.mem_map.mp hm
        rw [← hi2]
        exact ⟨fun _ => hi, fun hf => by simp at hf⟩
      · obtain ⟨i, hi, hi2⟩ := List.mem_map.mp hm
        rw [← hi2]
        exact ⟨fun ht => by simp at ht, fun _ => hi⟩
    refine ⟨_, (Option.some.inj h).symm, ?_, ?_⟩
    · show m.1 + op.length ≤ m.2
      omega
    · show m.2 ≤ text.length
      have hpf := findAllOccurrences_mem m.2 hmstack.2
      have hb := isPrefixAt_length (by intro hc0; rw [hc0] at hcl; simp at hcl) hpf
      omega

theorem tag_result_shape (state : EditorState) (text : List Char) (c : Nat)
    (d : List Char × List Char) (hd2 : d.2 ≠ []) (r : SelectionRangeWithPairResult)
    (h : findSurroundingTagPair state text c d = some r) :
    ∃ pp : PairPosition, r = createSelectionResult state pp ∧
      pp.openingEnd ≤ pp.closingStart ∧ pp.closingStart ≤ text.length := by
  simp only [findSurroundingTagPair] at h
  split at h
  · exact Option.noConfusion h
  · rename_i m hm
    split at h
    · exact Option.noConfusion h
    · rename_i loi hlast
      split at h
      · exact Option.noConfusion h
      · rename_i ncl hidx
        split at h
        · exact Option.noConfusion h
        · rename_i hcond
          have hidx0 : indexOfStrFrom
              (text.drop (loi + (jsSubstring (text.take c) m.1 m.2).length)) d.2 0 =
                some ncl := hidx
          have hpf := (indexOfStrFrom_some hidx0).2.1
          have hlen := isPrefixAt_length hd2 hpf
          rw [List.length_drop] at hlen
          have hc2 : 1 ≤ d.2.length := by
            cases hd0 : d.2 with
            | nil => exact absurd hd0 hd2
            | cons a l => simp
          refine ⟨_, (Option.some.inj h).symm, ?_, ?_⟩
          · show loi + (jsSubstring (text.take c) m.1 m.2).length ≤
              loi + (jsSubstring (text.take c) m.1 m.2).length + ncl
            omega
          · show loi + (jsSubstring (text.take c) m.1 m.2).length + ncl ≤ text.length
            omega

theorem findSurroundingPair_shape (state : EditorState) (pair : PairType)
    (r : SelectionRangeWithPairResult) (h : findSurroundingPair state pair = some r) :
    ∃ pp : PairPosition, r = createSelectionResult state pp ∧
      pp.openingEnd ≤ pp.closingStart ∧
      pp.closingStart ≤ (documentText state).length := by
  cases pair with
  | basic b =>
    rw [findSurroundingPair_basic] at h
    have hlen : ∀ b0 : BasicPairType,
        (PAIR_DELIMITERS b0).1.length = 1 ∧ (PAIR_DELIMITERS b0).2.length = 1 := by
      intro b0; cases b0 <;> exact ⟨rfl, rfl⟩
    by_cases hq : (PAIR_DELIMITERS b).1 = (PAIR_DELIMITERS b).2
    · rw [findSurroundingBasicPair_quote state _ _ _ hq] at h
      rw [← hq] at h
      exact quote_result_shape state _ _ _ (hlen b).1 r h
    · rw [findSurroundingBasicPair_bracket state _ _ _ hq] at h
      exact bracket_result_shape state _ _ _ _ hq (hlen b).1 (hlen b).2 rfl r h
  | tag name =>
    rw [findSurroundingPair_tag_eq] at h
    exact tag_result_shape state _ _ _ (by simp [getPairDelimiter]) r h

theorem createSelectionResult_range (state : EditorState) (pp : PairPosition) :
    (createSelectionResult state pp).range =
      ⟨offsetToPosition state pp.openingEnd, offsetToPosition state pp.closingStart⟩ := rfl

theorem range_mk_start (a b : Position) : (⟨a, b⟩ : Range).start = a := rfl

theorem range_mk_stop (a b : Position) : (⟨a, b⟩ : Range).stop = b := rfl

theorem pairPosition_mk_openingEnd (a b c d : Nat) :
    (⟨a, b, c, d⟩ : PairPosition).openingEnd = b := rfl

theorem pairPosition_mk_closingStart (a b c d : Nat) :
    (⟨a, b, c, d⟩ : PairPosition).closingStart = c := rfl

/-- C8 counterexample: the buffer `c8State` holds `(a` on line 0, then 99999
empty lines, then `)` alone on line 100000, with the cursor at (0, 1)
(offset 1). Its document text `c8Doc` has `(` at offset 0 and `)` at offset
100002, so the stack matcher yields the single balanced pair (0, 100002),
which strictly contains the cursor, and `findSurroundingPair` converts the
pair position (0, 1, 100002, 100003). The `offsetToPosition` walk covers
only lines 0..99999, whose lengths-plus-newlines sum to 3 + 99999 = 100002,
so offset 100002 is never reached inside the ceiling and the error value
(0, 0) is returned for the content range's end, while its start converts to
(0, 1): `range.start <= range.end` fails on this non-null result. -/
theorem C8_counterexample :
    findSurroundingPair c8State (.basic .paren) =
      some (createSelectionResult c8State ⟨0, 1, 100002, 100003⟩) ∧
    (createSelectionResult c8State ⟨0, 1, 100002, 100003⟩).range.start = ⟨0, 1⟩ ∧
    (createSelectionResult c8State ⟨0, 1, 100002, 100003⟩).range.stop = ⟨0, 0⟩ ∧
    ¬ posLe (⟨0, 1⟩ : Position) ⟨0, 0⟩ := by
  refine ⟨c8_result, ?_, ?_, by decide⟩
  · rw [createSelectionResult_range, range_mk_start, pairPosition_mk_openingEnd]
    exact (@offsetToPosition_eq c8State 1 0 (by decide) (by decide) (by decide)).trans
      (by decide)
  · rw [createSelectionResult_range, range_mk_stop, pairPosition_mk_closingStart]
    exact offsetToPosition_overflow c8State c8_lls_max

/-- C8 (amended): for every buffer of at most MAX_LINES lines and every
non-null result of `findSurroundingPair` (any descriptor), the orderings
startRange.end <= range.start, range.start <= range.end, and
range.end <= endRange.start all hold. The outer two hold with equality by
construction of `createSelectionResult`; the middle one holds because on
every code path (quote break or fallback, bracket innermost, bracket
fallback, tag) the selected pair position satisfies
openingEnd <= closingStart <= document length
(`findSurroundingPair_shape`), and under the line bound every such offset
stays below the `offsetToPosition` walk ceiling, where the conversion is
monotone. -/
theorem C8_invariants (state : EditorState) (pair : PairType)
    (r : SelectionRangeWithPairResult) (hL : state.lines.length ≤ MAX_LINES)
    (h : findSurroundingPair state pair = some r) :
    posLe r.startRange.stop r.range.start ∧ posLe r.range.start r.range.stop ∧
      posLe r.range.stop r.endRange.start := by
  obtain ⟨pp, rfl, h1, h2⟩ := findSurroundingPair_shape state pair r h
  have hrefl : ∀ p : Position, posLe p p := fun p => Or.inr ⟨rfl, le_refl _⟩
  refine ⟨hrefl _, ?_, hrefl _⟩
  show posLe (offsetToPosition state pp.openingEnd) (offsetToPosition state pp.closingStart)
  exact offsetToPosition_mono state h1 (offset_lt_ceiling state hL h2)

/-- Witness for C8: the one-line buffer `(a)` with the cursor at (0, 1)
satisfies the line bound, `findSurroundingPair` returns the parenthesis
pair's result, and the three orderings hold for it. -/
theorem C8_invariants_witness :
    posLe (createSelectionResult ⟨[['(', 'a', ')']], ⟨0, 1⟩, ⟨⟨0, 1⟩, ⟨0, 1⟩⟩⟩
        ⟨0, 1, 2, 3⟩).startRange.stop
      (createSelectionResult ⟨[['(', 'a', ')']], ⟨0, 1⟩, ⟨⟨0, 1⟩, ⟨0, 1⟩⟩⟩
        ⟨0, 1, 2, 3⟩).range.start ∧
    posLe (createSelectionResult ⟨[['(', 'a', ')']], ⟨0, 1⟩, ⟨⟨0, 1⟩, ⟨0, 1⟩⟩⟩
        ⟨0, 1, 2, 3⟩).range.start
      (createSelectionResult ⟨[['(', 'a', ')']], ⟨0, 1⟩, ⟨⟨0, 1⟩, ⟨0, 1⟩⟩⟩
        ⟨0, 1, 2, 3⟩).range.stop ∧
    posLe (createSelectionResult ⟨[['(', 'a', ')']], ⟨0, 1⟩, ⟨⟨0, 1⟩, ⟨0, 1⟩⟩⟩
        ⟨0, 1, 2, 3⟩).range.stop
      (createSelectionResult ⟨[['(', 'a', ')']], ⟨0, 1⟩, ⟨⟨0, 1⟩, ⟨0, 1⟩⟩⟩
        ⟨0, 1, 2, 3⟩).endRange.start :=
  C8_invariants ⟨[['(', 'a', ')']], ⟨0, 1⟩, ⟨⟨0, 1⟩, ⟨0, 1⟩⟩⟩ (.basic .paren)
    (createSelectionResult ⟨[['(', 'a', ')']], ⟨0, 1⟩, ⟨⟨0, 1⟩, ⟨0, 1⟩⟩⟩ ⟨0, 1, 2, 3⟩)
    (by decide) (by decide)
